import Mathlib

/-!
# Quote and settlement core of `app/app/internal/service/app.go`

A shallow embedding of `AppService.GetTrade`, `AppService.Trade`,
`GetAmountOut` and `requestHbsResult`, together with the parts of the Go
runtime and standard library these functions rely on (`float64`
arithmetic, `strconv.ParseFloat`, `strconv.FormatFloat`, `strconv.ParseInt`,
`fmt.Sprintf("%.4f")`, `big.Int.SetString`).

Go strings that the code inspects byte by byte (`csd`) are produced by
`big.Int.String` and by `strconv.FormatFloat`; they are ASCII, so bytes and
characters coincide and strings are handled through their character lists.
-/

set_option exponentiation.threshold 5000
set_option maxRecDepth 4000

namespace New6App

/-! ## binary64 -/

/-- A `float64` value.  A finite value is a sign and a magnitude counted in
units of `2^-1074`, the smallest positive subnormal: every finite binary64
number is such a multiple. -/
inductive F64 where
  | nan : F64
  | inf (neg : Bool) : F64
  | fin (neg : Bool) (k : Nat) : F64
  deriving DecidableEq

/-- Number of units of `2^-1074` in `1`. -/
def unit : Nat := 2 ^ 1074

/-- First magnitude (in units) that is no longer finite: `2^1024`. -/
def overflowUnits : Nat := 2 ^ 2098

/-- First `j` at or after the given one with `n < 2^(2^j)`. -/
def ilog2Bound (n : Nat) : Nat → Nat → Nat
  | 0, j => j
  | fuel + 1, j => if n < 2 ^ (2 ^ j) then j else ilog2Bound n fuel (j + 1)

/-- Binary search for the highest set bit, knowing it lies below
`acc + 2^j`. -/
def ilog2Search (n : Nat) : Nat → Nat → Nat
  | 0, acc => acc
  | j + 1, acc =>
    if 2 ^ (acc + 2 ^ j) ≤ n then ilog2Search n j (acc + 2 ^ j) else ilog2Search n j acc

/-- Position of the highest set bit of `n` (`0` for `n = 0`). -/
def ilog2 (n : Nat) : Nat := ilog2Search n (ilog2Bound n n 0) 0

/-- Round the positive rational `n / d`, counted in units of `2^-1074`, to
binary64 with round-to-nearest, ties-to-even: 53 significant bits, gradual
underflow, overflow to infinity. -/
def roundUnits (neg : Bool) (n d : Nat) : F64 :=
  let t := n / d
  let sh := ilog2 t - 52
  let dd := d * 2 ^ sh
  let m := n / dd
  let r := n % dd
  let m1 := if dd < 2 * r ∨ (2 * r = dd ∧ m % 2 = 1) then m + 1 else m
  let k := m1 * 2 ^ sh
  if overflowUnits ≤ k then F64.inf neg else F64.fin neg k

/-- The binary64 nearest to the rational `± p / q`. -/
def fromRat (neg : Bool) (p q : Nat) : F64 := roundUnits neg (p * unit) q

/-- Conversion `float64(n)` of an integer. -/
def F64.ofInt (n : Int) : F64 := fromRat (decide (n < 0)) n.natAbs 1

/-- Product of two `float64` values. -/
def F64.mul : F64 → F64 → F64
  | .nan, _ => .nan
  | _, .nan => .nan
  | .inf a, .inf b => .inf (xor a b)
  | .inf a, .fin b k => if k = 0 then .nan else .inf (xor a b)
  | .fin a k, .inf b => if k = 0 then .nan else .inf (xor a b)
  | .fin a k1, .fin b k2 => roundUnits (xor a b) (k1 * k2) unit

/-- Quotient of two `float64` values; dividing by zero yields an infinity
or NaN, never a fault. -/
def F64.div : F64 → F64 → F64
  | .nan, _ => .nan
  | _, .nan => .nan
  | .inf _, .inf _ => .nan
  | .inf a, .fin b _ => .inf (xor a b)
  | .fin a _, .inf b => .fin (xor a b) 0
  | .fin a k1, .fin b k2 =>
    if k2 = 0 then (if k1 = 0 then .nan else .inf (xor a b))
    else roundUnits (xor a b) (k1 * unit) k2

/-- Smallest `int64`. -/
def minInt64 : Int := -(2 ^ 63)

/-- Largest `int64`. -/
def maxInt64 : Int := 2 ^ 63 - 1

/-- Conversion `int64(f)`: truncation toward zero.  For NaN, infinities and
values outside the `int64` range Go leaves the result to the implementation;
it is whatever `invalid` answers for the value. -/
def F64.toInt64 (f : F64) (invalid : F64 → Int) : Int :=
  match f with
  | .fin neg k =>
    let t : Int := (k / unit : Nat)
    let v : Int := if neg then -t else t
    if minInt64 ≤ v ∧ v ≤ maxInt64 then v else invalid f
  | _ => invalid f

/-- Out-of-range conversion of the gc compiler on amd64: always the
"integer indefinite" `-2^63`. -/
def invalidAmd64 : F64 → Int := fun _ => minInt64

/-- Out-of-range conversion of a saturating target (arm64): `0` for NaN,
the nearest end of the `int64` range otherwise. -/
def invalidSaturating : F64 → Int
  | .nan => 0
  | .inf neg => if neg then minInt64 else maxInt64
  | .fin neg _ => if neg then minInt64 else maxInt64

/-- Order test `f <= 0` on `float64` (false for NaN). -/
def F64.leZero : F64 → Bool
  | .nan => false
  | .inf neg => neg
  | .fin neg k => neg || k == 0

/-- The constant `10000000000` as a `float64`. -/
def f1e10 : F64 := F64.fin false (10000000000 * unit)

/-- The constant `10` as a `float64`. -/
def f10 : F64 := F64.fin false (10 * unit)

/-! ## strconv -/

/-- Test `'0' <= c && c <= '9'`. -/
def isDigit (c : Char) : Bool := decide (48 ≤ c.toNat ∧ c.toNat ≤ 57)

/-- Value `c - '0'` of a digit. -/
def digitVal (c : Char) : Nat := c.toNat - 48

/-- Loop of `natDigits`: digits of `n`, most significant first, put in
front of `acc`. -/
def natDigitsAux : Nat → Nat → List Char → List Char
  | 0, _, acc => acc
  | fuel + 1, n, acc =>
    if n / 10 = 0 then Nat.digitChar (n % 10) :: acc
    else natDigitsAux fuel (n / 10) (Nat.digitChar (n % 10) :: acc)

/-- Decimal digits of a natural number, without leading zeros (`"0"` for
zero). -/
def natDigits (n : Nat) : List Char := natDigitsAux (n + 1) n []

/-- Decimal digits of `n` on exactly `w` places (the low `w` digits, padded
with zeros on the left). -/
def fixedDigits : Nat → Nat → List Char
  | 0, _ => []
  | w + 1, n => fixedDigits w (n / 10) ++ [Nat.digitChar (n % 10)]

/-- The two failures of `strconv`: `ErrSyntax` and `ErrRange`. -/
inductive NumError where
  | syntax_ : NumError
  | range : NumError
  deriving DecidableEq

/-- Largest `uint64`. -/
def maxUint64 : Nat := 2 ^ 64 - 1

/-- Loop of `strconv.ParseUint(s, 10, 64)` over the bytes of `s`, with the
accumulator `n`: a byte that is not a decimal digit is a syntax error, an
accumulator that leaves `uint64` is a range error with value `maxUint64`;
the first of the two met decides. -/
def parseUintLoop : List Char → Nat → Nat × Option NumError
  | [], n => (n, none)
  | c :: cs, n =>
    if isDigit c then
      if maxUint64 / 10 + 1 ≤ n then (maxUint64, some NumError.range)
      else if maxUint64 < n * 10 + digitVal c then (maxUint64, some NumError.range)
      else parseUintLoop cs (n * 10 + digitVal c)
    else (0, some NumError.syntax_)

/-- Function `strconv.ParseUint(s, 10, 64)`. -/
def ParseUint (s : List Char) : Nat × Option NumError :=
  match s with
  | [] => (0, some NumError.syntax_)
  | _ => parseUintLoop s 0

/-- Function `strconv.ParseInt(s, 10, 64)`: value and error.  On a syntax
error the value is `0`; on a range error it is the nearest end of the
`int64` range. -/
def ParseInt (s : List Char) : Int × Option NumError :=
  match s with
  | [] => (0, some NumError.syntax_)
  | c :: cs =>
    let neg := decide (c = '-')
    let body := if c = '+' ∨ c = '-' then cs else c :: cs
    let un := (ParseUint body).1
    if (ParseUint body).2 = some NumError.syntax_ then (0, some NumError.syntax_)
    else if neg = false ∧ 2 ^ 63 ≤ un then (maxInt64, some NumError.range)
    else if neg = true ∧ 2 ^ 63 < un then (minInt64, some NumError.range)
    else (if neg = true then -(un : Int) else (un : Int), none)

/-- One step of the search for the shortest decimal that reads back as the
finite positive magnitude `k`: among the multiples of `10^(309 - i)` the one
just below `k` and the one just above are tried; when both read back as `k`
the nearer one is taken (the even one on a tie).  The result is the multiple
`c` and the exponent `309 - i`. -/
def shortestAux (k : Nat) : Nat → Nat → Nat × Int
  | 0, _ => (k * 5 ^ 1074, -1074)
  | fuel + 1, i =>
    let num := if i ≤ 309 then k else k * 10 ^ (i - 309)
    let den := if i ≤ 309 then unit * 10 ^ (309 - i) else unit
    let lo := num / den
    let r := num % den
    let back : Nat → F64 := fun c =>
      if i ≤ 309 then fromRat false (c * 10 ^ (309 - i)) 1 else fromRat false c (10 ^ (i - 309))
    let okLo := decide (lo ≠ 0) && decide (back lo = F64.fin false k)
    let okHi := decide (lo * den + den ≤ 2 * num) && decide (back (lo + 1) = F64.fin false k)
    if okLo && okHi then
      (if 2 * r < den ∨ (2 * r = den ∧ lo % 2 = 0) then (lo, 309 - (i : Int))
       else (lo + 1, 309 - (i : Int)))
    else if okLo then (lo, 309 - (i : Int))
    else if okHi then (lo + 1, 309 - (i : Int))
    else shortestAux k fuel (i + 1)

/-- Shortest decimal `c * 10^u` that `ParseFloat` reads back as the finite
positive magnitude `k`; multiples of a larger power of ten are tried first,
down to `10^-1074`, of which every finite magnitude is a multiple. -/
def shortest (k : Nat) : Nat × Int := shortestAux k 1384 0

/-- Digits of `strconv.FormatFloat(f, 'f', -1, 64)` for the decimal
`c * 10^u` without sign: integer part, then the point and the fractional
digits when there are any. -/
def renderF (c : Nat) (u : Int) : List Char :=
  match u with
  | Int.ofNat e => if c = 0 then natDigits 0 else natDigits c ++ List.replicate e '0'
  | Int.negSucc e =>
    natDigits (c / 10 ^ (e + 1)) ++ '.' :: fixedDigits (e + 1) (c % 10 ^ (e + 1))

/-- Function `strconv.FormatFloat(f, 'f', -1, 64)`. -/
def FormatFloat : F64 → List Char
  | .nan => "NaN".data
  | .inf neg => if neg then "-Inf".data else "+Inf".data
  | .fin neg k =>
    let body := if k = 0 then natDigits 0 else renderF (shortest k).1 (shortest k).2
    if neg then '-' :: body else body

/-- Function `fmt.Sprintf("%.4f", f)`: the value rounded to four fractional
digits, ties to even. -/
def Sprintf4 : F64 → String
  | .nan => "NaN"
  | .inf neg => if neg then "-Inf" else "+Inf"
  | .fin neg k =>
    let n := k * 10000 / unit
    let r := k * 10000 % unit
    let n1 := if unit < 2 * r ∨ (2 * r = unit ∧ n % 2 = 1) then n + 1 else n
    let body := natDigits (n1 / 10000) ++ '.' :: fixedDigits 4 (n1 % 10000)
    String.mk (if neg then '-' :: body else body)

/-- Run of decimal digits at the head of a string: the value accumulated
onto `acc`, the number of digits read added to `n`, and the rest. -/
def scanDigits : List Char → Nat → Nat → Nat × Nat × List Char
  | [], acc, n => (acc, n, [])
  | c :: cs, acc, n =>
    if isDigit c then scanDigits cs (acc * 10 + digitVal c) (n + 1) else (acc, n, c :: cs)

/-- Decimal literals `[+-]ddd`, `[+-]ddd.ddd`, `[+-].ddd`, `[+-]ddd.` with at
least one digit: the sign, the digits read as one integer `m`, and the number
`f` of digits after the point, so that the literal denotes `± m / 10^f`.
Every other string gives `none`. -/
def readDecimal (s : List Char) : Option (Bool × Nat × Nat) :=
  let neg := decide (s.head? = some '-')
  let s1 := if s.head? = some '+' ∨ s.head? = some '-' then s.tail else s
  match scanDigits s1 0 0 with
  | (m, ni, []) => if ni = 0 then none else some (neg, m, 0)
  | (m, ni, c :: s2) =>
    if c = '.' then
      match scanDigits s2 m 0 with
      | (m2, nf, []) => if ni + nf = 0 then none else some (neg, m2, nf)
      | _ => none
    else none

/-- Function `strconv.ParseFloat(s, 64)` (the code passes the bit size
`10`, which `strconv` treats as 64), error dropped as the callers do.  On a
decimal literal the result is the correctly rounded binary64.  The other
strings `ParseFloat` knows (exponents, hexadecimal mantissas, infinities,
NaN, digit separators, malformed text) are left to `other`, a parameter. -/
def ParseFloat (other : String → F64) (s : String) : F64 :=
  match readDecimal s.data with
  | some (neg, m, f) => fromRat neg m (10 ^ f)
  | none => other s

/-! ## math/big -/

/-- Value of a run of decimal digits onto the accumulator `acc`. -/
def digitsValue : List Char → Nat → Nat
  | [], acc => acc
  | c :: cs, acc => digitsValue cs (acc * 10 + digitVal c)

/-- Method `new(big.Int).SetString(s, 10)`: an optional sign followed by at
least one decimal digit and nothing else; `none` is the failure
`(nil, false)`. -/
def SetString (s : List Char) : Option Int :=
  match s with
  | [] => none
  | c :: cs =>
    let body := if c = '+' ∨ c = '-' then cs else c :: cs
    if body ≠ [] ∧ body.all isDigit = true then
      some (if c = '-' then -(digitsValue body 0 : Int) else (digitsValue body 0 : Int))
    else none

/-- Method `(*big.Int).String`. -/
def bigString (b : Int) : List Char :=
  if b < 0 then '-' :: natDigits b.natAbs else natDigits b.natAbs

/-! ## Data model -/

/-- A Go `error`: the errors the service builds with
`errors.New(code, reason, message)`, or an error of a collaborator. -/
inductive GoError where
  | kratos (code : Int) (reason : String) (message : String) : GoError
  | foreign (tag : Nat) : GoError
  deriving DecidableEq

/-- What a handler hands back: the pair `(reply, error)` of Go, either of
which may be `nil`, or a run-time panic. -/
inductive Result (α : Type) where
  | ret (reply : Option α) (err : Option GoError) : Result α
  | panic : Result α
  deriving DecidableEq

/-- Request of `GetTrade`; `Amount` is `req.SendBody.Amount`. -/
structure GetTradeRequest where
  Amount : String
  deriving DecidableEq

/-- Reply of `GetTrade`. -/
structure GetTradeReply where
  AmountCsd : String
  AmountHbs : String
  deriving DecidableEq

/-- Request of `Trade`; `Amount` is `req.SendBody.Amount`. -/
structure WithdrawRequest where
  Amount : String
  deriving DecidableEq

/-- Reply of `Trade`. -/
structure WithdrawReply where
  Status : String
  deriving DecidableEq

/-- Entry of the price list. -/
structure eth where
  CoinId : String
  Usd : F64
  deriving DecidableEq

/-- Outcome of fetching and decoding the price list: a transport, read or
decode failure, or the decoded `Data` slice, whose elements are pointers and
may be `nil`. -/
inductive FeedResponse where
  | failure : FeedResponse
  | decoded (Data : List (Option eth)) : FeedResponse

/-- A dynamically typed value stored in the claims map. -/
inductive ClaimValue where
  | number (f : F64) : ClaimValue
  | other : ClaimValue
  deriving DecidableEq

/-- The claims object found in the request context: a `jwt.MapClaims` with
its `"UserId"` entry (`none` when the entry is missing or nil), or a claims
object of another type. -/
inductive Claims where
  | mapClaims (userId : Option ClaimValue) : Claims
  | otherType : Claims
  deriving DecidableEq

/-- Calls that leave the service. -/
inductive Event where
  | dial : Event
  | routerCall (amount : Int) : Event
  | feedGet : Event
  | ledgerTrade (userId : Int) (req : WithdrawRequest) (tmpValue amountB : Int) : Event
  deriving DecidableEq

/-- Everything outside the service that a request meets. -/
structure Env where
  /-- Value of `strconv.ParseFloat` on the strings that are not decimal literals. -/
  parseFloatOther : String → F64
  /-- Whether `ethclient.Dial` and the router binding succeed. -/
  connect : Bool
  /-- Method `GetAmountsOut` of the router for the given input amount and the
  fixed path; `none` is a failed call. -/
  router : Int → Option (List Int)
  /-- What `int64(f)` yields for NaN, infinities and values outside the
  `int64` range on the target the service is built for. -/
  int64Invalid : F64 → Int
  /-- Response of the price feed. -/
  feed : FeedResponse
  /-- Ledger operation `uuc.Trade(ctx, req, &biz.User{ID: userId}, tmpValue, amountB)`. -/
  ledger : Int → WithdrawRequest → Int → Int → Result WithdrawReply

/-- Outcome of a helper that returns `(value, error)`. -/
inductive Fetch (α : Type) where
  | ok (v : α) : Fetch α
  | err : Fetch α
  | panic : Fetch α
  deriving DecidableEq

/-! ## The service -/

/-- Function `GetAmountOut`: dial, bind the router, parse the amount, call
`GetAmountsOut` and print the second amount.  The failure of `SetString` is
dropped by the code; the nil `*big.Int` it leaves makes the binding panic
while packing the call, before any request to the router. -/
def GetAmountOut (env : Env) (strAmount : String) : Fetch (List Char) × List Event :=
  if env.connect = false then (Fetch.err, [Event.dial])
  else
    match SetString strAmount.data with
    | none => (Fetch.panic, [Event.dial])
    | some amount =>
      match env.router amount with
      | none => (Fetch.err, [Event.dial, Event.routerCall amount])
      | some bals =>
        match bals.get? 1 with
        | none => (Fetch.panic, [Event.dial, Event.routerCall amount])
        | some b => (Fetch.ok (bigString b), [Event.dial, Event.routerCall amount])

/-- Loop of `requestHbsResult` over `i.Data`, with the current `price`;
`none` is the nil-pointer panic on a nil element. -/
def hbsLoop : List (Option eth) → F64 → Option F64
  | [], price => some price
  | none :: _, _ => none
  | some v :: rest, price => hbsLoop rest (if "HBS(BEP20)" = v.CoinId then v.Usd else price)

/-- Function `requestHbsResult`. -/
def requestHbsResult (env : Env) : Fetch F64 × List Event :=
  match env.feed with
  | FeedResponse.failure => (Fetch.err, [Event.feedGet])
  | FeedResponse.decoded data =>
    match hbsLoop data (F64.fin false 0) with
    | none => (Fetch.panic, [Event.feedGet])
    | some price => (Fetch.ok price, [Event.feedGet])

/-- Constructor `errors.New(500, "ERROR_TOKEN", message)`. -/
def errToken (message : String) : GoError := GoError.kratos 500 "ERROR_TOKEN" message

/-- Method `AppService.GetTrade`, with the calls it made.  Its opening
comment announces that the claims object is taken out of the context; the
body never reads the context, so the preview is the same with or without
claims. -/
def GetTrade (env : Env) (req : GetTradeRequest) : Result GetTradeReply × List Event :=
  let amountFloat := ParseFloat env.parseFloatOther req.Amount
  let amountFloatCsd := amountFloat.mul f1e10
  let amount := (ParseInt (FormatFloat amountFloatCsd)).1
  if 100000000000 > amount then (Result.ret none (some (errToken "输入错误")), [])
  else if 0 ≠ Int.tmod amount 10 then (Result.ret none (some (errToken "10的整数倍")), [])
  else
    match GetAmountOut env (req.Amount ++ "000000000000000000") with
    | (Fetch.panic, ev) => (Result.panic, ev)
    | (Fetch.err, ev) => (Result.ret none (some (errToken "查询币价错误")), ev)
    | (Fetch.ok csd, ev) =>
      let lenValue := csd.length
      if 10 > lenValue then (Result.ret none (some (errToken "币价过低")), ev)
      else
        let tmpValue := (ParseInt (csd.take (lenValue - 8))).1
        if 0 = tmpValue then (Result.ret none (some (errToken "币价过低")), ev)
        else
          match requestHbsResult env with
          | (Fetch.panic, ev2) => (Result.panic, ev ++ ev2)
          | (Fetch.err, ev2) => (Result.ret none (some (errToken "查询币价错误")), ev ++ ev2)
          | (Fetch.ok hbs, ev2) =>
            let amountFloatHbs := amountFloat.mul f10
            let amountB := ((amountFloatHbs.div hbs).mul f1e10).toInt64 env.int64Invalid
            if 0 ≥ amountB then (Result.ret none (some (errToken "币价错误")), ev ++ ev2)
            else
              (Result.ret (some
                { AmountCsd := Sprintf4 ((F64.ofInt tmpValue).div (F64.ofInt 10000000000))
                  AmountHbs := Sprintf4 ((F64.ofInt amountB).div (F64.ofInt 10000000000)) })
                none, ev ++ ev2)

/-- The identity block that opens `Trade`.  `claims` is what
`jwt.FromContext(ctx)` finds: with no claims in the context the block is
skipped and `userId` keeps its zero value; a claims object that is not a
`jwt.MapClaims`, or a `"UserId"` that is not a `float64`, fails the type
assertion; a missing or nil `"UserId"` is the only error return. -/
def identity (env : Env) (claims : Option Claims) : Fetch Int :=
  match claims with
  | none => Fetch.ok 0
  | some Claims.otherType => Fetch.panic
  | some (Claims.mapClaims none) => Fetch.err
  | some (Claims.mapClaims (some ClaimValue.other)) => Fetch.panic
  | some (Claims.mapClaims (some (ClaimValue.number f))) => Fetch.ok (f.toInt64 env.int64Invalid)

/-- Method `AppService.Trade`, with the calls it made. -/
def Trade (env : Env) (claims : Option Claims) (req : WithdrawRequest) :
    Result WithdrawReply × List Event :=
  match identity env claims with
  | Fetch.panic => (Result.panic, [])
  | Fetch.err => (Result.ret none (some (errToken "无效TOKEN")), [])
  | Fetch.ok userId =>
    let amountFloat := ParseFloat env.parseFloatOther req.Amount
    let amountFloatCsd := amountFloat.mul f1e10
    let amount := (ParseInt (FormatFloat amountFloatCsd)).1
    if 100000000000 > amount then (Result.ret (some { Status := "fail" }) none, [])
    else if 0 ≠ Int.tmod amount 10 then (Result.ret none (some (errToken "10的整数倍")), [])
    else
      match GetAmountOut env (req.Amount ++ "000000000000000000") with
      | (Fetch.panic, ev) => (Result.panic, ev)
      | (Fetch.err, ev) => (Result.ret none (some (errToken "查询币价错误")), ev)
      | (Fetch.ok csd, ev) =>
        let lenValue := csd.length
        if 10 > lenValue then (Result.ret none (some (errToken "币价过低")), ev)
        else
          let tmpValue := (ParseInt (csd.take (lenValue - 8))).1
          if 0 = tmpValue then (Result.ret none (some (errToken "币价过低")), ev)
          else
            match requestHbsResult env with
            | (Fetch.panic, ev2) => (Result.panic, ev ++ ev2)
            | (Fetch.err, ev2) => (Result.ret none (some (errToken "查询币价错误")), ev ++ ev2)
            | (Fetch.ok hbs, ev2) =>
              let amountFloatHbs := amountFloat.mul f10
              let amountB := ((amountFloatHbs.div hbs).mul f1e10).toInt64 env.int64Invalid
              if 0 ≥ amountB then (Result.ret none (some (errToken "币价错误")), ev ++ ev2)
              else
                (env.ledger userId req tmpValue amountB,
                  ev ++ ev2 ++ [Event.ledgerTrade userId req tmpValue amountB])

/-! ## Scenarios and specification-side notions -/

/-- The eighteen zeros appended to the amount. -/
def zeros18 : String := "000000000000000000"

/-- The price the loop of `requestHbsResult` ends with, told from the list
alone: the `Usd` of the last entry named `"HBS(BEP20)"`, zero without one. -/
def lastHbsPrice (data : List eth) : F64 :=
  match (data.filter (fun v => decide (v.CoinId = "HBS(BEP20)"))).getLast? with
  | some v => v.Usd
  | none => F64.fin false 0

/-- An environment with a reachable router answering `bals` to every query,
a feed answering the decoded entries `data`, and the conversions of amd64. -/
def envOf (other : String → F64) (bals : List Int) (data : List eth)
    (ledger : Int → WithdrawRequest → Int → Int → Result WithdrawReply) : Env :=
  { parseFloatOther := other
    connect := true
    router := fun _ => some bals
    int64Invalid := invalidAmd64
    feed := FeedResponse.decoded (data.map some)
    ledger := ledger }

/-- A ledger that accepts every trade. -/
def ledgerOk : Int → WithdrawRequest → Int → Int → Result WithdrawReply :=
  fun _ _ _ _ => Result.ret (some { Status := "ok" }) none

/-- The end-to-end scenario: the router answers `10^18` for the last hop and
the feed quotes `HBS(BEP20)` at `2.0`. -/
def envScenario : Env :=
  envOf (fun _ => F64.nan) [10000000000000000000, 1000000000000000000]
    [{ CoinId := "HBS(BEP20)", Usd := F64.fin false (2 * unit) }] ledgerOk

/-- Whether an event is a call of the ledger collaborator. -/
def Event.isLedger : Event → Bool
  | Event.ledgerTrade _ _ _ _ => true
  | _ => false

/-- The scaled amount `amount` both handlers compute from the request
string: `ParseInt(FormatFloat(ParseFloat(s) * 10000000000, 'f', -1, 64))`. -/
def scaledAmount (env : Env) (s : String) : Int :=
  (ParseInt (FormatFloat ((ParseFloat env.parseFloatOther s).mul f1e10))).1

/-- The value `float64(v) / float64(10000000000)` printed with `%.4f`. -/
def display (v : Int) : String := Sprintf4 ((F64.ofInt v).div (F64.ofInt 10000000000))

/-- The ledger-scale value `tmpValue` both handlers compute from the router
output `csd`: `ParseInt(csd[0:len(csd)-8])`. -/
def tmpValueOf (csd : List Char) : Int := (ParseInt (csd.take (csd.length - 8))).1

/-- The amount `amountB` both handlers compute from the request string and
the feed price: `int64(amountFloat * 10 / hbs * 10000000000)`. -/
def amountBOf (env : Env) (s : String) (hbs : F64) : Int :=
  ((((ParseFloat env.parseFloatOther s).mul f10).div hbs).mul f1e10).toInt64 env.int64Invalid

/-- The amount passes the validator: its scaled value is at least `10^11`
and a multiple of 10. -/
def Validated (env : Env) (s : String) : Prop :=
  100000000000 ≤ scaledAmount env s ∧ Int.tmod (scaledAmount env s) 10 = 0

instance (env : Env) (s : String) : Decidable (Validated env s) := by
  unfold Validated
  exact inferInstance

/-- The query string handed to `GetAmountOut`. -/
def chainAmount (s : String) : String := s ++ "000000000000000000"

/-- The rational number a decimal literal denotes (`none` on every other
string): the specification's `parseDecimal`. -/
def decimalValue (s : String) : Option ℚ :=
  (readDecimal s.data).map (fun p => (if p.1 = true then -1 else 1) * (p.2.1 : ℚ) / 10 ^ p.2.2)

/-- The specification's scaled amount `round(a * 10^10)`. -/
def specScaledCsd (a : ℚ) : ℤ := round (a * 10 ^ 10)

/-- An environment whose router answers `10^27` for the last hop. -/
def envLarge : Env :=
  envOf (fun _ => F64.nan) [0, 1000000000000000000000000000]
    [{ CoinId := "HBS(BEP20)", Usd := F64.fin false (2 * unit) }] ledgerOk

/-- An environment whose feed lists no `HBS(BEP20)` entry, so that the
lookup ends with the zero price. -/
def envNoPrice : Env :=
  envOf (fun _ => F64.nan) [10000000000000000000, 1000000000000000000]
    [{ CoinId := "BTC", Usd := F64.fin false (60000 * unit) }] ledgerOk

/-- The environment `envNoPrice` on a target whose `int64` conversion
saturates. -/
def envSaturating : Env := { envNoPrice with int64Invalid := invalidSaturating }

/-- A magnitude is representable when it is a multiple of the spacing of
its binade. -/
def Representable (k : Nat) : Prop := 2 ^ (ilog2 k - 52) ∣ k

/-- The binary64 number `10 - 2^-35`, in units. -/
def boundAmount : Nat := 343597383679 * 2 ^ 1039

/-- The binary64 number `10^11 - 1/4`, in units. -/
def boundScaled : Nat := 399999999999 * 2 ^ 1072

/-- The binary64 number `10^11`, in units. -/
def floorScaled : Nat := 100000000000 * unit

/-! ## Lemmas -/

theorem hbsLoop_map_some (data : List eth) (price : F64) :
    hbsLoop (data.map some) price
      = some ((data.filter (fun v => decide (v.CoinId = "HBS(BEP20)"))).getLast?.elim
          price (fun v => v.Usd)) := by
  induction data generalizing price with
  | nil => rfl
  | cons v rest ih =>
    simp only [List.map_cons, hbsLoop, ih, List.filter_cons]
    by_cases h : v.CoinId = "HBS(BEP20)"
    · have h2 : "HBS(BEP20)" = v.CoinId := h.symm
      rw [if_pos h2, if_pos (decide_eq_true h)]
      cases hr : List.filter (fun v => decide (v.CoinId = "HBS(BEP20)")) rest with
      | nil => rfl
      | cons w ws => rw [List.getLast?_cons_cons]; rfl
    · have h2 : ¬ "HBS(BEP20)" = v.CoinId := fun e => h e.symm
      rw [if_neg h2, if_neg (by rw [decide_eq_false h]; exact Bool.false_ne_true)]

theorem isDigit_ne_sign {c : Char} (h : isDigit c = true) : c ≠ '+' ∧ c ≠ '-' ∧ c ≠ '.' := by
  refine ⟨?_, ?_, ?_⟩ <;> (rintro rfl; revert h; decide)

theorem digitsValue_append (l1 l2 : List Char) (acc : Nat) :
    digitsValue (l1 ++ l2) acc = digitsValue l2 (digitsValue l1 acc) := by
  induction l1 generalizing acc with
  | nil => rfl
  | cons c cs ih => exact ih _

theorem digitsValue_replicate_zero (n acc : Nat) :
    digitsValue (List.replicate n '0') acc = acc * 10 ^ n := by
  induction n generalizing acc with
  | zero => simp [digitsValue]
  | succ n ih =>
    have h0 : digitVal '0' = 0 := by decide
    simp only [List.replicate_succ, digitsValue, ih, h0]
    ring

theorem scanDigits_all (l : List Char) (h : l.all isDigit = true) (acc n : Nat) :
    scanDigits l acc n = (digitsValue l acc, n + l.length, []) := by
  induction l generalizing acc n with
  | nil => rfl
  | cons c cs ih =>
    simp only [List.all_cons, Bool.and_eq_true] at h
    simp only [scanDigits, h.1, if_true, ih h.2, digitsValue, List.length_cons]
    congr 2
    omega

theorem SetString_digits (l : List Char) (hne : l ≠ []) (h : l.all isDigit = true) :
    SetString l = some (digitsValue l 0 : Int) := by
  cases l with
  | nil => exact absurd rfl hne
  | cons c cs =>
    have hc : isDigit c = true := by
      simp only [List.all_cons, Bool.and_eq_true] at h
      exact h.1
    obtain ⟨h1, h2, _⟩ := isDigit_ne_sign hc
    simp [SetString, h1, h2, h]

theorem readDecimal_digits (l : List Char) (hne : l ≠ []) (h : l.all isDigit = true) :
    readDecimal l = some (false, digitsValue l 0, 0) := by
  cases l with
  | nil => exact absurd rfl hne
  | cons c cs =>
    have hc : isDigit c = true := by
      simp only [List.all_cons, Bool.and_eq_true] at h
      exact h.1
    obtain ⟨h1, h2, _⟩ := isDigit_ne_sign hc
    have h1' : ¬ c = '+' := h1
    have h2' : ¬ c = '-' := h2
    simp only [readDecimal, List.head?_cons, Option.some.injEq, h1', h2', or_self, if_false,
      decide_False, scanDigits_all _ h]
    simp

theorem GetAmountOut_events (env : Env) (s : String) :
    ∀ e ∈ (GetAmountOut env s).2, e.isLedger = false := by
  intro e he
  have hall : ∀ (r : Fetch (List Char)) (ev : List Event),
      ((r, ev) = (GetAmountOut env s)) → (∀ x ∈ ev, x.isLedger = false) := by
    intro r ev hr
    simp only [GetAmountOut] at hr
    split at hr
    · cases hr
      intro x hx
      simp only [List.mem_singleton] at hx
      subst hx; rfl
    · split at hr
      · cases hr
        intro x hx
        simp only [List.mem_singleton] at hx
        subst hx; rfl
      · split at hr
        · cases hr
          intro x hx
          simp only [List.mem_cons, List.mem_singleton, List.mem_nil_iff, or_false] at hx
          rcases hx with rfl | rfl <;> rfl
        · split at hr <;>
          · cases hr
            intro x hx
            simp only [List.mem_cons, List.mem_singleton, List.mem_nil_iff, or_false] at hx
            rcases hx with rfl | rfl <;> rfl
  exact hall _ _ rfl e he

theorem requestHbsResult_events (env : Env) : (requestHbsResult env).2 = [Event.feedGet] := by
  simp only [requestHbsResult]
  split
  · rfl
  · split <;> rfl

/-- The two handlers side by side: every way `GetTrade` can end, and what
`Trade` does on the same request under claims whose `UserId` is a number. -/
theorem Trade_GetTrade_cases (env : Env) (amount : String) (f : F64) :
    (GetTrade env { Amount := amount }
        = (Result.ret none (some (errToken "输入错误")), [])
      ∧ Trade env (some (Claims.mapClaims (some (ClaimValue.number f)))) { Amount := amount }
        = (Result.ret (some { Status := "fail" }) none, []))
    ∨ (∃ msg ev, msg ≠ "输入错误" ∧ (∀ e ∈ ev, e.isLedger = false)
      ∧ GetTrade env { Amount := amount } = (Result.ret none (some (errToken msg)), ev)
      ∧ Trade env (some (Claims.mapClaims (some (ClaimValue.number f)))) { Amount := amount }
        = (Result.ret none (some (errToken msg)), ev))
    ∨ (∃ ev, (∀ e ∈ ev, e.isLedger = false)
      ∧ GetTrade env { Amount := amount } = (Result.panic, ev)
      ∧ Trade env (some (Claims.mapClaims (some (ClaimValue.number f)))) { Amount := amount }
        = (Result.panic, ev))
    ∨ (∃ tmpValue amountB ev, (∀ e ∈ ev, e.isLedger = false)
      ∧ GetTrade env { Amount := amount }
        = (Result.ret (some { AmountCsd := display tmpValue, AmountHbs := display amountB }) none,
            ev)
      ∧ Trade env (some (Claims.mapClaims (some (ClaimValue.number f)))) { Amount := amount }
        = (env.ledger (f.toInt64 env.int64Invalid) { Amount := amount } tmpValue amountB,
            ev ++ [Event.ledgerTrade (f.toInt64 env.int64Invalid) { Amount := amount } tmpValue amountB])) := by
  have hA := GetAmountOut_events env (amount ++ "000000000000000000")
  have hF := requestHbsResult_events env
  simp only [GetTrade, Trade, identity]
  generalize (ParseInt (FormatFloat ((ParseFloat env.parseFloatOther amount).mul f1e10))).1 = amt
  by_cases h1 : 100000000000 > amt
  · left
    simp only [h1, if_true, and_self]
  · by_cases h2 : 0 ≠ Int.tmod amt 10
    · right; left
      refine ⟨"10的整数倍", [], by decide, by simp, ?_⟩
      simp only [h1, h2, if_true, if_false, and_self, ne_eq, not_false_eq_true]
    · simp only [h1, h2, if_false]
      rcases hg : GetAmountOut env (amount ++ "000000000000000000") with ⟨r, ev⟩
      rw [hg] at hA
      cases r with
      | panic => right; right; left; exact ⟨ev, hA, rfl, rfl⟩
      | err => right; left; exact ⟨"查询币价错误", ev, by decide, hA, rfl, rfl⟩
      | ok csd =>
        simp only
        by_cases h3 : 10 > csd.length
        · right; left
          refine ⟨"币价过低", ev, by decide, hA, ?_⟩
          simp only [h3, if_true, and_self]
        · simp only [h3, if_false]
          by_cases h4 : 0 = (ParseInt (List.take (csd.length - 8) csd)).1
          · right; left
            refine ⟨"币价过低", ev, by decide, hA, ?_⟩
            simp only [← h4, if_true, and_self]
          · simp only [h4, if_false]
            rcases hq : requestHbsResult env with ⟨q, ev2⟩
            rw [hq] at hF
            simp only at hF
            subst hF
            have hev : ∀ e ∈ ev ++ [Event.feedGet], e.isLedger = false := by
              intro e he
              rcases List.mem_append.1 he with h | h
              · exact hA e h
              · simp only [List.mem_singleton] at h
                subst h; rfl
            cases q with
            | panic => right; right; left; exact ⟨_, hev, rfl, rfl⟩
            | err => right; left; exact ⟨"查询币价错误", _, by decide, hev, rfl, rfl⟩
            | ok hbs =>
              simp only
              by_cases h5 : 0 ≥ ((((ParseFloat env.parseFloatOther amount).mul f10).div hbs).mul
                  f1e10).toInt64 env.int64Invalid
              · right; left
                refine ⟨"币价错误", _, by decide, hev, ?_⟩
                simp only [h5, if_true, and_self]
              · right; right; right
                refine ⟨(ParseInt (List.take (csd.length - 8) csd)).1,
                  ((((ParseFloat env.parseFloatOther amount).mul f10).div hbs).mul f1e10).toInt64 env.int64Invalid,
                  ev ++ [Event.feedGet], hev, ?_⟩
                simp only [h5, if_false, display, and_self]

theorem digitChar_isDigit : ∀ d < 10, isDigit (Nat.digitChar d) = true ∧ digitVal (Nat.digitChar d) = d := by
  decide

theorem digitVal_le_nine {c : Char} (h : isDigit c = true) : digitVal c ≤ 9 := by
  simp only [isDigit, decide_eq_true_eq] at h
  simp only [digitVal]
  omega

theorem digitsValue_acc (l : List Char) (acc : Nat) :
    digitsValue l acc = acc * 10 ^ l.length + digitsValue l 0 := by
  induction l generalizing acc with
  | nil => simp [digitsValue]
  | cons c cs ih =>
    simp only [digitsValue, List.length_cons]
    rw [ih (acc * 10 + digitVal c), ih (0 * 10 + digitVal c)]
    ring

theorem digitsValue_lt (l : List Char) (h : l.all isDigit = true) :
    digitsValue l 0 < 10 ^ l.length := by
  induction l with
  | nil => simp [digitsValue]
  | cons c cs ih =>
    simp only [List.all_cons, Bool.and_eq_true] at h
    have hc := digitVal_le_nine h.1
    have ht := ih h.2
    simp only [digitsValue, List.length_cons]
    rw [digitsValue_acc]
    have : 10 ^ (cs.length + 1) = 10 * 10 ^ cs.length := by ring
    rw [this]
    nlinarith [pow_pos (show (0 : ℕ) < 10 by norm_num) cs.length]

theorem digitsValue_ge_acc (l : List Char) (acc : Nat) : acc ≤ digitsValue l acc := by
  rw [digitsValue_acc]
  have : 1 ≤ 10 ^ l.length := Nat.one_le_pow _ _ (by norm_num)
  nlinarith

theorem parseUintLoop_digits (l : List Char) (h : l.all isDigit = true) (n : Nat)
    (hn : n ≤ maxUint64) :
    parseUintLoop l n
      = if digitsValue l n ≤ maxUint64 then (digitsValue l n, none)
        else (maxUint64, some NumError.range) := by
  induction l generalizing n with
  | nil =>
    simp only [parseUintLoop, digitsValue, hn, if_true]
  | cons c cs ih =>
    simp only [List.all_cons, Bool.and_eq_true] at h
    simp only [parseUintLoop, h.1, if_true, digitsValue]
    have hge := digitsValue_ge_acc cs (n * 10 + digitVal c)
    have hmax : maxUint64 = 18446744073709551615 := by decide
    by_cases h1 : maxUint64 / 10 + 1 ≤ n
    · have : ¬ digitsValue cs (n * 10 + digitVal c) ≤ maxUint64 := by
        rw [hmax] at h1 ⊢
        omega
      rw [if_pos h1, if_neg this]
    · rw [if_neg h1]
      by_cases h2 : maxUint64 < n * 10 + digitVal c
      · have : ¬ digitsValue cs (n * 10 + digitVal c) ≤ maxUint64 := by omega
        rw [if_pos h2, if_neg this]
      · rw [if_neg h2, ih h.2 _ (not_lt.1 h2)]

theorem ParseInt_digits (l : List Char) (hne : l ≠ []) (h : l.all isDigit = true) :
    (ParseInt l).1 = if digitsValue l 0 < 2 ^ 63 then (digitsValue l 0 : Int) else maxInt64 := by
  cases l with
  | nil => exact absurd rfl hne
  | cons c cs =>
    have hc : isDigit c = true := by
      simp only [List.all_cons, Bool.and_eq_true] at h
      exact h.1
    obtain ⟨h1, h2, _⟩ := isDigit_ne_sign hc
    have h1' : ¬ c = '+' := h1
    have h2' : ¬ c = '-' := h2
    have hmax : maxUint64 = 18446744073709551615 := by decide
    simp only [ParseInt, h1', h2', or_self, if_false, decide_False, ParseUint]
    rw [parseUintLoop_digits _ h 0 (Nat.zero_le _)]
    have e63 : (2 : Nat) ^ 63 = 9223372036854775808 := by norm_num
    simp only [e63]
    by_cases hv : digitsValue (c :: cs) 0 ≤ maxUint64
    · rw [if_pos hv]
      by_cases hw : digitsValue (c :: cs) 0 < 9223372036854775808
      · have : ¬ (9223372036854775808 ≤ digitsValue (c :: cs) 0) := by omega
        simp [hw, this]
      · have : (9223372036854775808 ≤ digitsValue (c :: cs) 0) := by omega
        simp [hw, this]
    · rw [if_neg hv]
      have hw : ¬ digitsValue (c :: cs) 0 < 9223372036854775808 := by
        rw [hmax] at hv
        omega
      have : 9223372036854775808 ≤ maxUint64 := by decide
      simp [hw, this]

theorem stage_minimum (env : Env) (a : String) (claims : Option Claims) (uid : Int)
    (hid : identity env claims = Fetch.ok uid) (h : scaledAmount env a < 100000000000) :
    GetTrade env { Amount := a } = (Result.ret none (some (errToken "输入错误")), [])
    ∧ Trade env claims { Amount := a } = (Result.ret (some { Status := "fail" }) none, []) := by
  have h' : 100000000000 > (ParseInt (FormatFloat
      ((ParseFloat env.parseFloatOther a).mul f1e10))).1 := h
  simp only [GetTrade, Trade, hid, h', if_true, and_self]

theorem stage_granularity (env : Env) (a : String) (claims : Option Claims) (uid : Int)
    (hid : identity env claims = Fetch.ok uid) (h1 : 100000000000 ≤ scaledAmount env a)
    (h2 : Int.tmod (scaledAmount env a) 10 ≠ 0) :
    GetTrade env { Amount := a } = (Result.ret none (some (errToken "10的整数倍")), [])
    ∧ Trade env claims { Amount := a } = (Result.ret none (some (errToken "10的整数倍")), []) := by
  have h1' : ¬ 100000000000 > (ParseInt (FormatFloat
      ((ParseFloat env.parseFloatOther a).mul f1e10))).1 := not_lt.2 h1
  have h2' : 0 ≠ Int.tmod (ParseInt (FormatFloat
      ((ParseFloat env.parseFloatOther a).mul f1e10))).1 10 := fun e => h2 e.symm
  simp only [GetTrade, Trade, hid, h1', h2', if_true, if_false, and_self, ne_eq, not_false_eq_true]

theorem stage_router (env : Env) (a : String) (claims : Option Claims) (uid : Int)
    (hid : identity env claims = Fetch.ok uid) (hv : Validated env a) :
    GetTrade env { Amount := a }
      = (match GetAmountOut env (chainAmount a) with
        | (Fetch.panic, ev) => (Result.panic, ev)
        | (Fetch.err, ev) => (Result.ret none (some (errToken "查询币价错误")), ev)
        | (Fetch.ok csd, ev) =>
          if csd.length < 10 ∨ tmpValueOf csd = 0 then
            (Result.ret none (some (errToken "币价过低")), ev)
          else
            match requestHbsResult env with
            | (Fetch.panic, ev2) => (Result.panic, ev ++ ev2)
            | (Fetch.err, ev2) => (Result.ret none (some (errToken "查询币价错误")), ev ++ ev2)
            | (Fetch.ok hbs, ev2) =>
              if amountBOf env a hbs ≤ 0 then
                (Result.ret none (some (errToken "币价错误")), ev ++ ev2)
              else
                (Result.ret (some { AmountCsd := display (tmpValueOf csd)
                                    AmountHbs := display (amountBOf env a hbs) }) none, ev ++ ev2))
    ∧ Trade env claims { Amount := a }
      = (match GetAmountOut env (chainAmount a) with
        | (Fetch.panic, ev) => (Result.panic, ev)
        | (Fetch.err, ev) => (Result.ret none (some (errToken "查询币价错误")), ev)
        | (Fetch.ok csd, ev) =>
          if csd.length < 10 ∨ tmpValueOf csd = 0 then
            (Result.ret none (some (errToken "币价过低")), ev)
          else
            match requestHbsResult env with
            | (Fetch.panic, ev2) => (Result.panic, ev ++ ev2)
            | (Fetch.err, ev2) => (Result.ret none (some (errToken "查询币价错误")), ev ++ ev2)
            | (Fetch.ok hbs, ev2) =>
              if amountBOf env a hbs ≤ 0 then
                (Result.ret none (some (errToken "币价错误")), ev ++ ev2)
              else
                (env.ledger uid { Amount := a } (tmpValueOf csd) (amountBOf env a hbs),
                  ev ++ ev2
                    ++ [Event.ledgerTrade uid { Amount := a } (tmpValueOf csd)
                          (amountBOf env a hbs)])) := by
  have h1' : ¬ 100000000000 > (ParseInt (FormatFloat
      ((ParseFloat env.parseFloatOther a).mul f1e10))).1 := not_lt.2 hv.1
  have h2' : ¬ 0 ≠ Int.tmod (ParseInt (FormatFloat
      ((ParseFloat env.parseFloatOther a).mul f1e10))).1 10 := fun e => e hv.2.symm
  simp only [GetTrade, Trade, hid, h1', h2', if_false, chainAmount]
  rcases GetAmountOut env (a ++ "000000000000000000") with ⟨r, ev⟩
  cases r with
  | panic => exact ⟨rfl, rfl⟩
  | err => exact ⟨rfl, rfl⟩
  | ok csd =>
    simp only
    by_cases h3 : 10 > csd.length
    · have : csd.length < 10 ∨ tmpValueOf csd = 0 := Or.inl h3
      rw [if_pos this, if_pos this]
      simp only [h3, if_true, and_self]
    · by_cases h4 : 0 = (ParseInt (List.take (csd.length - 8) csd)).1
      · have : csd.length < 10 ∨ tmpValueOf csd = 0 := Or.inr h4.symm
        rw [if_pos this, if_pos this]
        simp only [h3, ← h4, if_true, if_false, and_self]
      · have : ¬ (csd.length < 10 ∨ tmpValueOf csd = 0) := by
          rintro (h | h)
          · exact h3 h
          · exact h4 h.symm
        rw [if_neg this, if_neg this]
        simp only [h3, h4, if_false]
        rcases requestHbsResult env with ⟨q, ev2⟩
        cases q with
        | panic => exact ⟨rfl, rfl⟩
        | err => exact ⟨rfl, rfl⟩
        | ok hbs =>
          simp only
          by_cases h5 : amountBOf env a hbs ≤ 0
          · have h5' : 0 ≥ ((((ParseFloat env.parseFloatOther a).mul f10).div hbs).mul
                f1e10).toInt64 env.int64Invalid := h5
            rw [if_pos h5, if_pos h5]
            simp only [h5', if_true, and_self]
          · have h5' : ¬ 0 ≥ ((((ParseFloat env.parseFloatOther a).mul f10).div hbs).mul
                f1e10).toInt64 env.int64Invalid := h5
            rw [if_neg h5, if_neg h5]
            simp only [h5', if_false]
            exact ⟨rfl, rfl⟩

theorem natDigitsAux_all (fuel n : Nat) (acc : List Char) (h : acc.all isDigit = true) :
    (natDigitsAux fuel n acc).all isDigit = true := by
  induction fuel generalizing n acc with
  | zero => exact h
  | succ fuel ih =>
    have hd : isDigit (Nat.digitChar (n % 10)) = true :=
      (digitChar_isDigit (n % 10) (Nat.mod_lt _ (by norm_num))).1
    have hacc : (Nat.digitChar (n % 10) :: acc).all isDigit = true := by
      simp only [List.all_cons, hd, h, Bool.and_self]
    simp only [natDigitsAux]
    split
    · exact hacc
    · exact ih _ _ hacc

theorem natDigitsAux_value (fuel n : Nat) (acc : List Char) (hn : n < fuel) :
    digitsValue (natDigitsAux fuel n acc) 0 = n * 10 ^ acc.length + digitsValue acc 0 := by
  induction fuel generalizing n acc with
  | zero => exact absurd hn (Nat.not_lt_zero _)
  | succ fuel ih =>
    have hd : digitVal (Nat.digitChar (n % 10)) = n % 10 :=
      (digitChar_isDigit (n % 10) (Nat.mod_lt _ (by norm_num))).2
    have hcons : digitsValue (Nat.digitChar (n % 10) :: acc) 0
        = (n % 10) * 10 ^ acc.length + digitsValue acc 0 := by
      simp only [digitsValue, hd]
      rw [digitsValue_acc]
      ring_nf
    simp only [natDigitsAux]
    split
    · rename_i h0
      rw [hcons]
      have : n % 10 = n := by omega
      rw [this]
    · rename_i h0
      rw [ih (n / 10) _ (by omega), hcons, List.length_cons]
      have h10 : 10 ^ (acc.length + 1) = 10 * 10 ^ acc.length := by ring
      rw [h10]
      have hn10 : n = 10 * (n / 10) + n % 10 := (Nat.div_add_mod n 10).symm
      generalize 10 ^ acc.length = p at *
      generalize digitsValue acc 0 = q at *
      generalize n / 10 = a at *
      generalize n % 10 = b at *
      subst hn10
      ring

theorem natDigitsAux_length (fuel n : Nat) (acc : List Char) (hn : n < fuel) :
    acc.length + 1 ≤ (natDigitsAux fuel n acc).length
    ∧ ∀ k, 1 ≤ k → (n < 10 ^ k ↔ (natDigitsAux fuel n acc).length ≤ acc.length + k) := by
  induction fuel generalizing n acc with
  | zero => exact absurd hn (Nat.not_lt_zero _)
  | succ fuel ih =>
    simp only [natDigitsAux]
    split
    · rename_i h0
      refine ⟨by simp, ?_⟩
      intro k hk
      have h1 : n < 10 := by omega
      have h2 : 10 ^ 1 ≤ 10 ^ k := Nat.pow_le_pow_right (by norm_num) hk
      constructor
      · intro _
        simp only [List.length_cons]
        omega
      · intro _
        omega
    · rename_i h0
      obtain ⟨ih1, ih2⟩ := ih (n / 10) (Nat.digitChar (n % 10) :: acc) (by omega)
      simp only [List.length_cons] at ih1 ih2
      refine ⟨by omega, ?_⟩
      intro k hk
      rcases Nat.lt_or_ge 1 k with hk2 | hk2
      · have := ih2 (k - 1) (by omega)
        have hp : 10 ^ k = 10 * 10 ^ (k - 1) := by
          rw [← pow_succ']
          congr 1
          omega
        rw [hp]
        constructor
        · intro h
          have : n / 10 < 10 ^ (k - 1) := by omega
          omega
        · intro h
          have : n / 10 < 10 ^ (k - 1) := by
            apply this.2
            omega
          omega
      · have hk1 : k = 1 := by omega
        subst hk1
        constructor
        · intro h
          omega
        · intro h
          omega

theorem natDigits_all (n : Nat) : (natDigits n).all isDigit = true :=
  natDigitsAux_all _ _ _ rfl

theorem natDigits_value (n : Nat) : digitsValue (natDigits n) 0 = n := by
  have := natDigitsAux_value (n + 1) n [] (Nat.lt_succ_self n)
  simpa [natDigits, digitsValue] using this

theorem natDigits_length_le (n k : Nat) (hk : 1 ≤ k) :
    (natDigits n).length ≤ k ↔ n < 10 ^ k := by
  have := (natDigitsAux_length (n + 1) n [] (Nat.lt_succ_self n)).2 k hk
  simpa [natDigits] using this.symm

theorem digitsValue_take (s : List Char) (h : s.all isDigit = true) (hl : 8 ≤ s.length) :
    digitsValue (s.take (s.length - 8)) 0 = digitsValue s 0 / 10 ^ 8 := by
  have hs : s = s.take (s.length - 8) ++ s.drop (s.length - 8) := (List.take_append_drop _ _).symm
  have hdrop : (s.drop (s.length - 8)).all isDigit = true := by
    rw [List.all_eq_true] at h ⊢
    intro c hc
    exact h c (List.mem_of_mem_drop hc)
  have hlen : (s.drop (s.length - 8)).length = 8 := by
    rw [List.length_drop]
    omega
  have hlt := digitsValue_lt _ hdrop
  rw [hlen] at hlt
  have hv : digitsValue s 0
      = digitsValue (s.take (s.length - 8)) 0 * 10 ^ 8 + digitsValue (s.drop (s.length - 8)) 0 := by
    conv_lhs => rw [hs]
    rw [digitsValue_append, digitsValue_acc, hlen]
  rw [hv]
  generalize digitsValue (s.take (s.length - 8)) 0 = a at *
  generalize digitsValue (s.drop (s.length - 8)) 0 = b at *
  omega

theorem tmpValueOf_digits (s : List Char) (h : s.all isDigit = true) (hl : 10 ≤ s.length) :
    tmpValueOf s
      = if digitsValue s 0 / 10 ^ 8 < 2 ^ 63 then ((digitsValue s 0 / 10 ^ 8 : Nat) : Int)
        else maxInt64 := by
  have htake : (s.take (s.length - 8)).all isDigit = true := by
    rw [List.all_eq_true] at h ⊢
    intro c hc
    exact h c (List.mem_of_mem_take hc)
  have hne : s.take (s.length - 8) ≠ [] := by
    intro e
    have := congrArg List.length e
    rw [List.length_take] at this
    simp only [List.length_nil] at this
    omega
  rw [tmpValueOf, ParseInt_digits _ hne htake, digitsValue_take s h (by omega)]

theorem tmpValueOf_natDigits_ge (n : Nat) (hl : 10 ≤ (natDigits n).length) :
    10 ≤ tmpValueOf (natDigits n) := by
  have hn : ¬ n < 10 ^ 9 := by
    intro h
    have := (natDigits_length_le n 9 (by norm_num)).2 h
    omega
  rw [tmpValueOf_digits _ (natDigits_all n) hl, natDigits_value]
  have h10 : 10 ≤ n / 10 ^ 8 := by
    rw [Nat.le_div_iff_mul_le (by norm_num)]
    norm_num at hn ⊢
    omega
  split
  · exact_mod_cast h10
  · decide

theorem GetTrade_success (env : Env) (a : String) (r : GetTradeReply)
    (h : (GetTrade env { Amount := a }).1 = Result.ret (some r) none) :
    ∃ csd ev hbs, Validated env a
      ∧ GetAmountOut env (chainAmount a) = (Fetch.ok csd, ev)
      ∧ requestHbsResult env = (Fetch.ok hbs, [Event.feedGet])
      ∧ 10 ≤ csd.length ∧ tmpValueOf csd ≠ 0 ∧ 0 < amountBOf env a hbs
      ∧ r = { AmountCsd := display (tmpValueOf csd), AmountHbs := display (amountBOf env a hbs) } := by
  by_cases h1 : scaledAmount env a < 100000000000
  · rw [(stage_minimum env a none 0 rfl h1).1] at h
    cases h
  · by_cases h2 : Int.tmod (scaledAmount env a) 10 = 0
    · have hv : Validated env a := ⟨not_lt.1 h1, h2⟩
      rw [(stage_router env a none 0 rfl hv).1] at h
      have hF := requestHbsResult_events env
      rcases hg : GetAmountOut env (chainAmount a) with ⟨q, ev⟩
      rw [hg] at h
      cases q with
      | panic => cases h
      | err => cases h
      | ok csd =>
        simp only at h
        split at h
        · cases h
        · rename_i hc
          rcases hq : requestHbsResult env with ⟨p, ev2⟩
          rw [hq] at h hF
          simp only at hF
          subst hF
          cases p with
          | panic => cases h
          | err => cases h
          | ok hbs =>
            simp only at h
            split at h
            · cases h
            · rename_i hb
              simp only [Result.ret.injEq, Option.some.injEq, and_true] at h
              refine ⟨csd, ev, hbs, hv, rfl, rfl, ?_, ?_, ?_, h.symm⟩
              · omega
              · exact fun e => hc (Or.inr e)
              · omega
    · rw [(stage_granularity env a none 0 rfl (not_lt.1 h1) h2).1] at h
      cases h

theorem Trade_ledger_event (env : Env) (a : String) (claims : Option Claims)
    (e : Event) (he : e ∈ (Trade env claims { Amount := a }).2) (hl : e.isLedger = true) :
    ∃ uid csd ev hbs, identity env claims = Fetch.ok uid ∧ Validated env a
      ∧ GetAmountOut env (chainAmount a) = (Fetch.ok csd, ev)
      ∧ requestHbsResult env = (Fetch.ok hbs, [Event.feedGet])
      ∧ 10 ≤ csd.length ∧ tmpValueOf csd ≠ 0 ∧ 0 < amountBOf env a hbs
      ∧ e = Event.ledgerTrade uid { Amount := a } (tmpValueOf csd) (amountBOf env a hbs)
      ∧ Trade env claims { Amount := a }
        = (env.ledger uid { Amount := a } (tmpValueOf csd) (amountBOf env a hbs),
            ev ++ [Event.feedGet]
              ++ [Event.ledgerTrade uid { Amount := a } (tmpValueOf csd) (amountBOf env a hbs)]) := by
  have hnot : ∀ ev : List Event, (∀ x ∈ ev, x.isLedger = false) → e ∈ ev → False := by
    intro ev h hx
    rw [h e hx] at hl
    exact Bool.false_ne_true hl
  rcases hid : identity env claims with uid | _ | _
  · by_cases h1 : scaledAmount env a < 100000000000
    · rw [(stage_minimum env a claims uid hid h1).2] at he
      exact absurd he (List.not_mem_nil e)
    · by_cases h2 : Int.tmod (scaledAmount env a) 10 = 0
      · have hv : Validated env a := ⟨not_lt.1 h1, h2⟩
        rw [(stage_router env a claims uid hid hv).2] at he ⊢
        have hF := requestHbsResult_events env
        have hA := GetAmountOut_events env (chainAmount a)
        rcases hg : GetAmountOut env (chainAmount a) with ⟨q, ev⟩
        rw [hg] at he hA
        simp only at hA
        cases q with
        | panic => exact (hnot ev hA he).elim
        | err => exact (hnot ev hA he).elim
        | ok csd =>
          simp only at he ⊢
          split at he
          · exact (hnot ev hA he).elim
          · rename_i hc
            rw [if_neg hc]
            rcases hq : requestHbsResult env with ⟨p, ev2⟩
            rw [hq] at he hF
            simp only at hF
            subst hF
            have hev : ∀ x ∈ ev ++ [Event.feedGet], x.isLedger = false := by
              intro x hx
              rcases List.mem_append.1 hx with h | h
              · exact hA x h
              · simp only [List.mem_singleton] at h
                subst h; rfl
            cases p with
            | panic => exact (hnot _ hev he).elim
            | err => exact (hnot _ hev he).elim
            | ok hbs =>
              simp only at he ⊢
              split at he
              · exact (hnot _ hev he).elim
              · rename_i hb
                rw [if_neg hb]
                rcases List.mem_append.1 he with h | h
                · exact (hnot _ hev h).elim
                · simp only [List.mem_singleton] at h
                  refine ⟨uid, csd, ev, hbs, rfl, hv, rfl, rfl, ?_, ?_, ?_, h, rfl⟩
                  · omega
                  · exact fun e => hc (Or.inr e)
                  · omega
      · rw [(stage_granularity env a claims uid hid (not_lt.1 h1) h2).2] at he
        exact absurd he (List.not_mem_nil e)
  · simp only [Trade, hid] at he
    exact absurd he (List.not_mem_nil e)
  · simp only [Trade, hid] at he
    exact absurd he (List.not_mem_nil e)

theorem roundUnits_cases (neg : Bool) (n d : Nat) :
    roundUnits neg n d = F64.inf neg ∨ ∃ k, roundUnits neg n d = F64.fin neg k := by
  unfold roundUnits
  dsimp only
  split_ifs
  all_goals first
    | exact Or.inl rfl
    | exact Or.inr ⟨_, rfl⟩

theorem ParseInt_minus_nonpos (l : List Char) : (ParseInt ('-' :: l)).1 ≤ 0 := by
  have hm : minInt64 ≤ 0 := by decide
  have hc1 : ('-' : Char) = '+' ∨ ('-' : Char) = '-' := Or.inr rfl
  simp only [ParseInt, decide_True, if_pos hc1, Bool.true_eq_false, false_and, if_false,
    true_and, if_true]
  split_ifs
  all_goals first
    | exact le_refl _
    | exact hm
    | exact neg_nonpos.2 (Int.ofNat_nonneg _)

theorem FormatFloat_neg_nonpos (k : Nat) : (ParseInt (FormatFloat (F64.fin true k))).1 ≤ 0 := by
  simp only [FormatFloat, if_true]
  exact ParseInt_minus_nonpos _

theorem scaled_pos_finite (x : F64)
    (h : 0 < (ParseInt (FormatFloat (x.mul f1e10))).1) : ∃ k, 0 < k ∧ x = F64.fin false k := by
  cases x with
  | nan => exact absurd h (by decide)
  | inf neg => cases neg <;> exact absurd h (by decide)
  | fin neg k =>
    cases neg with
    | true =>
      exfalso
      have hm : (F64.fin true k).mul f1e10 = roundUnits true (k * (10000000000 * unit)) unit := rfl
      rw [hm] at h
      rcases roundUnits_cases true (k * (10000000000 * unit)) unit with e | ⟨k2, e⟩
      · rw [e] at h
        exact absurd h (by decide)
      · rw [e] at h
        exact absurd h (not_lt.2 (FormatFloat_neg_nonpos k2))
    | false =>
      rcases Nat.eq_zero_or_pos k with h0 | h0
      · subst h0
        exact absurd h (by decide)
      · exact ⟨k, h0, rfl⟩

theorem toInt64_nonpos_of (inv : F64 → Int) (hinv : ∀ v, inv v ≤ 0) (v : F64)
    (h : v = F64.nan ∨ (∃ b, v = F64.inf b) ∨ ∃ k, v = F64.fin true k) :
    v.toInt64 inv ≤ 0 := by
  rcases h with rfl | ⟨b, rfl⟩ | ⟨k, rfl⟩
  · exact hinv _
  · exact hinv _
  · simp only [F64.toInt64, if_true]
    split
    · exact neg_nonpos.2 (Int.ofNat_nonneg _)
    · exact hinv _

theorem mul_f1e10_nonpos (inv : F64 → Int) (hinv : ∀ v, inv v ≤ 0) (d : F64)
    (h : d = F64.nan ∨ (∃ b, d = F64.inf b) ∨ ∃ k, d = F64.fin true k) :
    (d.mul f1e10).toInt64 inv ≤ 0 := by
  apply toInt64_nonpos_of inv hinv
  rcases h with rfl | ⟨b, rfl⟩ | ⟨k, rfl⟩
  · exact Or.inl rfl
  · right; left
    exact ⟨xor b false, by cases b <;> decide⟩
  · have hm : (F64.fin true k).mul f1e10 = roundUnits true (k * (10000000000 * unit)) unit := rfl
    rw [hm]
    rcases roundUnits_cases true (k * (10000000000 * unit)) unit with e | ⟨k2, e⟩
    · exact Or.inr (Or.inl ⟨true, e⟩)
    · exact Or.inr (Or.inr ⟨k2, e⟩)

theorem div_nonpos_price (y hbs : F64) (hy : y = F64.inf false ∨ ∃ k, y = F64.fin false k)
    (hle : hbs.leZero = true) :
    y.div hbs = F64.nan ∨ (∃ b, y.div hbs = F64.inf b) ∨ ∃ k, y.div hbs = F64.fin true k := by
  cases hbs with
  | nan => exact absurd hle (by decide)
  | inf neg =>
    cases neg with
    | false => exact absurd hle (by decide)
    | true =>
      rcases hy with rfl | ⟨k, rfl⟩
      · exact Or.inl rfl
      · exact Or.inr (Or.inr ⟨0, rfl⟩)
  | fin neg k2 =>
    rcases hy with rfl | ⟨k, rfl⟩
    · exact Or.inr (Or.inl ⟨xor false neg, rfl⟩)
    · simp only [F64.div]
      split
      · split
        · exact Or.inl rfl
        · exact Or.inr (Or.inl ⟨_, rfl⟩)
      · rename_i hk2
        have hneg : neg = true := by
          simp only [F64.leZero, Bool.or_eq_true, beq_iff_eq] at hle
          rcases hle with h | h
          · exact h
          · exact absurd h hk2
        subst hneg
        rcases roundUnits_cases (xor false true) (k * unit) k2 with e | ⟨k3, e⟩
        · exact Or.inr (Or.inl ⟨_, e⟩)
        · exact Or.inr (Or.inr ⟨k3, e⟩)

theorem amountBOf_nonpos (env : Env) (a : String) (hbs : F64) (hv : Validated env a)
    (hinv : ∀ v, env.int64Invalid v ≤ 0)
    (hle : hbs.leZero = true) : amountBOf env a hbs ≤ 0 := by
  have hpos : 0 < (ParseInt (FormatFloat ((ParseFloat env.parseFloatOther a).mul f1e10))).1 :=
    lt_of_lt_of_le (by decide) hv.1
  obtain ⟨k, _, hx⟩ := scaled_pos_finite _ hpos
  unfold amountBOf
  rw [hx]
  apply mul_f1e10_nonpos _ hinv
  apply div_nonpos_price _ _ _ hle
  have hm : (F64.fin false k).mul f10 = roundUnits false (k * (10 * unit)) unit := rfl
  rw [hm]
  exact roundUnits_cases false _ _

theorem ilog2Bound_spec (n : Nat) (fuel j : Nat) (h : n < 2 ^ (2 ^ (j + fuel))) :
    n < 2 ^ (2 ^ (ilog2Bound n fuel j)) := by
  induction fuel generalizing j with
  | zero => simpa [ilog2Bound] using h
  | succ fuel ih =>
    simp only [ilog2Bound]
    split
    · assumption
    · apply ih
      have : j + 1 + fuel = j + (fuel + 1) := by omega
      rw [this]
      exact h

theorem ilog2Search_spec (n : Nat) (j acc : Nat) (h1 : 2 ^ acc ≤ n)
    (h2 : n < 2 ^ (acc + 2 ^ j)) :
    2 ^ (ilog2Search n j acc) ≤ n ∧ n < 2 ^ (ilog2Search n j acc + 1) := by
  induction j generalizing acc with
  | zero => simpa [ilog2Search] using ⟨h1, h2⟩
  | succ j ih =>
    simp only [ilog2Search]
    split
    · rename_i h
      apply ih _ h
      have : acc + 2 ^ j + 2 ^ j = acc + 2 ^ (j + 1) := by
        rw [pow_succ]
        omega
      rw [this]
      exact h2
    · rename_i h
      exact ih _ h1 (not_le.1 h)

theorem ilog2_spec (n : Nat) (hn : 0 < n) : 2 ^ ilog2 n ≤ n ∧ n < 2 ^ (ilog2 n + 1) := by
  unfold ilog2
  apply ilog2Search_spec
  · simpa using hn
  · rw [Nat.zero_add]
    apply ilog2Bound_spec
    rw [Nat.zero_add]
    calc n < 2 ^ n := Nat.lt_two_pow n
      _ ≤ 2 ^ (2 ^ n) := Nat.pow_le_pow_right (by norm_num) (le_of_lt (Nat.lt_two_pow n))

theorem ilog2_zero : ilog2 0 = 0 := by decide

theorem ilog2_mono {a b : Nat} (h : a ≤ b) : ilog2 a ≤ ilog2 b := by
  rcases Nat.eq_zero_or_pos a with rfl | ha
  · rw [ilog2_zero]
    exact Nat.zero_le _
  · have h1 := (ilog2_spec a ha).1
    have h2 := (ilog2_spec b (lt_of_lt_of_le ha h)).2
    have : 2 ^ ilog2 a < 2 ^ (ilog2 b + 1) := lt_of_le_of_lt (le_trans h1 h) h2
    have := (Nat.pow_lt_pow_iff_right (by norm_num : 1 < 2)).1 this
    omega


theorem roundUnits_le (neg : Bool) (n d kr : Nat) (hd : 0 < d) (hr : Representable kr)
    (hov : kr < overflowUnits) (h : n ≤ kr * d) :
    ∃ k, roundUnits neg n d = F64.fin neg k ∧ k ≤ kr := by
  unfold roundUnits
  dsimp only
  have ht : n / d ≤ kr := by
    rw [Nat.div_le_iff_le_mul_add_pred hd]
    nlinarith
  have hsh : ilog2 (n / d) - 52 ≤ ilog2 kr - 52 := Nat.sub_le_sub_right (ilog2_mono ht) 52
  obtain ⟨j0, hj0⟩ := hr
  obtain ⟨w, hw⟩ : ∃ w, ilog2 kr - 52 = (ilog2 (n / d) - 52) + w := ⟨_, (Nat.add_sub_cancel' hsh).symm⟩
  have hj : kr = (2 ^ w * j0) * 2 ^ (ilog2 (n / d) - 52) := by
    rw [hj0, hw, pow_add]
    ring
  generalize ilog2 (n / d) - 52 = sh at *
  generalize 2 ^ w * j0 = j at hj
  have hp : 0 < 2 ^ sh := pow_pos (by norm_num) sh
  have hdd : 0 < d * 2 ^ sh := Nat.mul_pos hd hp
  have hn : n ≤ j * (d * 2 ^ sh) := by
    rw [hj] at h
    linarith [h, (by ring : j * 2 ^ sh * d = j * (d * 2 ^ sh))]
  have hm : n / (d * 2 ^ sh) ≤ j := by
    rw [Nat.div_le_iff_le_mul_add_pred hdd]
    nlinarith
  have hm1 : (if d * 2 ^ sh < 2 * (n % (d * 2 ^ sh))
        ∨ (2 * (n % (d * 2 ^ sh)) = d * 2 ^ sh ∧ n / (d * 2 ^ sh) % 2 = 1)
      then n / (d * 2 ^ sh) + 1 else n / (d * 2 ^ sh)) ≤ j := by
    rcases Nat.lt_or_ge (n / (d * 2 ^ sh)) j with hlt | hge
    · split <;> omega
    · have hmj : n / (d * 2 ^ sh) = j := le_antisymm hm hge
      have hdm := Nat.div_add_mod n (d * 2 ^ sh)
      rw [hmj] at hdm
      have hr0 : n % (d * 2 ^ sh) = 0 := by
        have : d * 2 ^ sh * j = j * (d * 2 ^ sh) := by ring
        omega
      rw [hr0, hmj]
      have : ¬ (d * 2 ^ sh < 2 * 0 ∨ (2 * 0 = d * 2 ^ sh ∧ j % 2 = 1)) := by
        rintro (h | h) <;> omega
      rw [if_neg this]
  have hk : (if d * 2 ^ sh < 2 * (n % (d * 2 ^ sh))
        ∨ (2 * (n % (d * 2 ^ sh)) = d * 2 ^ sh ∧ n / (d * 2 ^ sh) % 2 = 1)
      then n / (d * 2 ^ sh) + 1 else n / (d * 2 ^ sh)) * 2 ^ sh ≤ kr := by
    rw [hj]
    exact Nat.mul_le_mul_right _ hm1
  refine ⟨_, ?_, hk⟩
  rw [if_neg (not_le.2 (lt_of_le_of_lt hk hov))]
theorem roundUnits_ge (neg : Bool) (n d kr : Nat) (hd : 0 < d) (hr : Representable kr)
    (hkr : 0 < kr) (h : kr * d ≤ n) :
    roundUnits neg n d = F64.inf neg ∨ ∃ k, roundUnits neg n d = F64.fin neg k ∧ kr ≤ k := by
  unfold roundUnits
  dsimp only
  have ht : kr ≤ n / d := (Nat.le_div_iff_mul_le hd).2 h
  have htpos : 0 < n / d := lt_of_lt_of_le hkr ht
  have hmono := ilog2_mono ht
  have hspec := ilog2_spec (n / d) htpos
  have hspecr := ilog2_spec kr hkr
  have hsh : ilog2 kr - 52 ≤ ilog2 (n / d) - 52 := Nat.sub_le_sub_right hmono 52
  obtain ⟨j0, hj0⟩ := hr
  have hcore : kr ≤ n / (d * 2 ^ (ilog2 (n / d) - 52)) * 2 ^ (ilog2 (n / d) - 52) := by
    rcases Nat.eq_or_lt_of_le hsh with heq | hlt
    · rw [← heq]
      have hp : 0 < 2 ^ (ilog2 kr - 52) := pow_pos (by norm_num) _
      have hdd : 0 < d * 2 ^ (ilog2 kr - 52) := Nat.mul_pos hd hp
      have hj : j0 ≤ n / (d * 2 ^ (ilog2 kr - 52)) := by
        rw [Nat.le_div_iff_mul_le hdd]
        calc j0 * (d * 2 ^ (ilog2 kr - 52)) = (2 ^ (ilog2 kr - 52) * j0) * d := by ring
          _ = kr * d := by rw [← hj0]
          _ ≤ n := h
      calc kr = j0 * 2 ^ (ilog2 kr - 52) := by rw [Nat.mul_comm]; exact hj0
        _ ≤ n / (d * 2 ^ (ilog2 kr - 52)) * 2 ^ (ilog2 kr - 52) := Nat.mul_le_mul_right _ hj
    · have hL : ilog2 (n / d) = (ilog2 (n / d) - 52) + 52 := by omega
      have hgt : ilog2 kr + 1 ≤ ilog2 (n / d) := by omega
      have hp : 0 < 2 ^ (ilog2 (n / d) - 52) := pow_pos (by norm_num) _
      have hdd : 0 < d * 2 ^ (ilog2 (n / d) - 52) := Nat.mul_pos hd hp
      have h1 : 2 ^ ilog2 (n / d) * d ≤ n := (Nat.le_div_iff_mul_le hd).1 hspec.1
      have h2 : 2 ^ 52 ≤ n / (d * 2 ^ (ilog2 (n / d) - 52)) := by
        rw [Nat.le_div_iff_mul_le hdd]
        calc 2 ^ 52 * (d * 2 ^ (ilog2 (n / d) - 52))
            = 2 ^ ((ilog2 (n / d) - 52) + 52) * d := by rw [pow_add]; ring
          _ = 2 ^ ilog2 (n / d) * d := by rw [← hL]
          _ ≤ n := h1
      calc kr ≤ 2 ^ (ilog2 kr + 1) := le_of_lt hspecr.2
        _ ≤ 2 ^ ilog2 (n / d) := Nat.pow_le_pow_right (by norm_num) hgt
        _ = 2 ^ 52 * 2 ^ (ilog2 (n / d) - 52) := by rw [← pow_add, Nat.add_comm, ← hL]
        _ ≤ n / (d * 2 ^ (ilog2 (n / d) - 52)) * 2 ^ (ilog2 (n / d) - 52) :=
          Nat.mul_le_mul_right _ h2
  generalize ilog2 (n / d) - 52 = sh at *
  have hk : kr ≤ (if d * 2 ^ sh < 2 * (n % (d * 2 ^ sh))
        ∨ (2 * (n % (d * 2 ^ sh)) = d * 2 ^ sh ∧ n / (d * 2 ^ sh) % 2 = 1)
      then n / (d * 2 ^ sh) + 1 else n / (d * 2 ^ sh)) * 2 ^ sh := by
    refine le_trans hcore (Nat.mul_le_mul_right _ ?_)
    split <;> omega
  by_cases hov : overflowUnits ≤ (if d * 2 ^ sh < 2 * (n % (d * 2 ^ sh))
        ∨ (2 * (n % (d * 2 ^ sh)) = d * 2 ^ sh ∧ n / (d * 2 ^ sh) % 2 = 1)
      then n / (d * 2 ^ sh) + 1 else n / (d * 2 ^ sh)) * 2 ^ sh
  · rw [if_pos hov]
    exact Or.inl rfl
  · rw [if_neg hov]
    exact Or.inr ⟨_, rfl, hk⟩
theorem shortest_step_spec (k i c : Nat)
    (h : (if i ≤ 309 then fromRat false (c * 10 ^ (309 - i)) 1 else fromRat false c (10 ^ (i - 309)))
      = F64.fin false k) :
    (∃ e : Nat, (309 - (i : Int)) = (e : Int) ∧ fromRat false (c * 10 ^ e) 1 = F64.fin false k)
    ∨ (∃ f : Nat, (309 - (i : Int)) = Int.negSucc f
        ∧ fromRat false c (10 ^ (f + 1)) = F64.fin false k) := by
  by_cases hi : i ≤ 309
  · rw [if_pos hi] at h
    left
    refine ⟨309 - i, ?_, h⟩
    omega
  · rw [if_neg hi] at h
    right
    refine ⟨i - 310, ?_, ?_⟩
    · rw [Int.negSucc_eq]
      omega
    · have : i - 310 + 1 = i - 309 := by omega
      rw [this]
      exact h

theorem branch_cases {α : Type} (okLo okHi : Bool) (p : Prop) [Decidable p] (x y r z : α)
    (h : (if (okLo && okHi) = true then (if p then x else y)
          else if okLo = true then x else if okHi = true then y else r) = z) :
    (okLo = true ∧ z = x) ∨ (okHi = true ∧ z = y) ∨ z = r := by
  cases okLo <;> cases okHi <;> simp at h
  · exact Or.inr (Or.inr h.symm)
  · exact Or.inr (Or.inl ⟨rfl, h.symm⟩)
  · exact Or.inl ⟨rfl, h.symm⟩
  · by_cases hp : p
    · rw [if_pos hp] at h
      exact Or.inl ⟨rfl, h.symm⟩
    · rw [if_neg hp] at h
      exact Or.inr (Or.inl ⟨rfl, h.symm⟩)

theorem shortestAux_spec (k fuel i c : Nat) (u : Int) (h : shortestAux k fuel i = (c, u)) :
    (c = k * 5 ^ 1074 ∧ u = -1074)
    ∨ (∃ e : Nat, u = (e : Int) ∧ fromRat false (c * 10 ^ e) 1 = F64.fin false k)
    ∨ (∃ f : Nat, u = Int.negSucc f ∧ fromRat false c (10 ^ (f + 1)) = F64.fin false k) := by
  induction fuel generalizing i with
  | zero =>
    simp only [shortestAux, Prod.mk.injEq] at h
    exact Or.inl ⟨h.1.symm, h.2.symm⟩
  | succ fuel ih =>
    unfold shortestAux at h
    dsimp only at h
    rcases branch_cases _ _ _ _ _ _ _ h with ⟨hok, heq⟩ | ⟨hok, heq⟩ | heq
    · simp only [Prod.mk.injEq] at heq
      obtain ⟨rfl, rfl⟩ := heq
      simp only [Bool.and_eq_true, decide_eq_true_eq] at hok
      exact Or.inr (shortest_step_spec k i _ hok.2)
    · simp only [Prod.mk.injEq] at heq
      obtain ⟨rfl, rfl⟩ := heq
      simp only [Bool.and_eq_true, decide_eq_true_eq] at hok
      exact Or.inr (shortest_step_spec k i _ hok.2)
    · exact ih _ heq.symm
theorem representable_bounds :
    Representable boundAmount ∧ Representable boundScaled ∧ Representable floorScaled
    ∧ boundAmount < overflowUnits ∧ boundScaled < overflowUnits
    ∧ boundAmount * 10000000000 ≤ boundScaled ∧ boundScaled < floorScaled
    ∧ 0 < floorScaled := by
  unfold Representable
  decide

theorem parseUintLoop_stop (l1 l2 : List Char) (c : Char) (n : Nat)
    (h1 : l1.all isDigit = true) (hv : digitsValue l1 n ≤ maxUint64) (hc : isDigit c = false) :
    parseUintLoop (l1 ++ c :: l2) n = (0, some NumError.syntax_) := by
  induction l1 generalizing n with
  | nil => simp [parseUintLoop, hc]
  | cons d ds ih =>
    simp only [List.all_cons, Bool.and_eq_true] at h1
    simp only [digitsValue] at hv
    have hge := digitsValue_ge_acc ds (n * 10 + digitVal d)
    have hmax : maxUint64 = 18446744073709551615 := by decide
    have ha : ¬ maxUint64 / 10 + 1 ≤ n := by
      rw [hmax] at hv ⊢
      omega
    have hb : ¬ maxUint64 < n * 10 + digitVal d := by omega
    simp only [List.cons_append, parseUintLoop, h1.1, if_true, if_neg ha, if_neg hb]
    exact ih _ h1.2 hv

theorem natDigits_cons (n : Nat) : ∃ d ds, natDigits n = d :: ds ∧ isDigit d = true := by
  have hl := (natDigitsAux_length (n + 1) n [] (Nat.lt_succ_self n)).1
  have ha := natDigits_all n
  unfold natDigits at ha ⊢
  cases h : natDigitsAux (n + 1) n [] with
  | nil => rw [h] at hl; simp at hl
  | cons d ds =>
    rw [h] at ha
    simp only [List.all_cons, Bool.and_eq_true] at ha
    exact ⟨d, ds, rfl, ha.1⟩

theorem ParseInt_with_point (ip : Nat) (l2 : List Char) (h : ip ≤ maxUint64) :
    (ParseInt (natDigits ip ++ '.' :: l2)).1 = 0 := by
  obtain ⟨d, ds, hd, hdig⟩ := natDigits_cons ip
  obtain ⟨h1, h2, _⟩ := isDigit_ne_sign hdig
  have h1' : ¬ d = '+' := h1
  have h2' : ¬ d = '-' := h2
  have hstop := parseUintLoop_stop (natDigits ip) l2 '.' 0 (natDigits_all ip)
    (by rw [natDigits_value]; exact h) (by decide)
  rw [hd] at hstop ⊢
  simp only [List.cons_append] at hstop ⊢
  simp only [ParseInt, h1', h2', or_self, if_false, ParseUint, hstop, if_true]
theorem fromRat_lt_floor (p q ky : Nat) (hq : 0 < q) (hky : ky ≤ boundScaled)
    (h : fromRat false p q = F64.fin false ky) : p < 100000000000 * q := by
  obtain ⟨_, _, hr, _, _, _, hlt, hpos⟩ := representable_bounds
  by_contra hcon
  have hge : floorScaled * q ≤ p * unit := by
    unfold floorScaled
    have := Nat.mul_le_mul_right unit (not_lt.1 hcon)
    calc 100000000000 * unit * q = 100000000000 * q * unit := by ring
      _ ≤ p * unit := this
  rcases roundUnits_ge false (p * unit) q floorScaled hq hr hpos hge with e | ⟨k, e, hk⟩
  · unfold fromRat at h
    rw [e] at h
    cases h
  · unfold fromRat at h
    rw [e] at h
    cases h
    omega

theorem scaled_of_small (ky : Nat) (h : ky ≤ boundScaled) :
    (ParseInt (FormatFloat (F64.fin false ky))).1 < 100000000000 := by
  have hmax : maxUint64 = 18446744073709551615 := by decide
  simp only [FormatFloat, Bool.false_eq_true, if_false]
  split
  · decide
  · rcases hs : shortest ky with ⟨c, u⟩
    simp only
    rcases shortestAux_spec ky 1384 0 c u hs with ⟨hc, hu⟩ | ⟨e, hu, hrt⟩ | ⟨f, hu, hrt⟩
    · subst hc hu
      have hu' : (-1074 : Int) = Int.negSucc 1073 := by decide
      rw [hu']
      simp only [renderF]
      rw [ParseInt_with_point]
      · norm_num
      · have h10 : (10 : Nat) ^ (1073 + 1) = unit * 5 ^ 1074 := by
          unfold unit
          rw [← Nat.mul_pow]
        rw [h10, Nat.mul_div_mul_right _ _ (pow_pos (by norm_num) _), hmax]
        have h1 : ky / unit ≤ boundScaled / unit := Nat.div_le_div_right h
        have h2 : boundScaled / unit = 99999999999 := by decide
        omega
    · subst hu
      have hlt := fromRat_lt_floor _ 1 ky Nat.one_pos h hrt
      rw [Nat.mul_one] at hlt
      show (ParseInt (renderF c (Int.ofNat e))).1 < 100000000000
      simp only [renderF]
      split
      · decide
      · rename_i hc0
        obtain ⟨d, ds, hd, hdig⟩ := natDigits_cons c
        have hall : (natDigits c ++ List.replicate e '0').all isDigit = true := by
          rw [List.all_append, natDigits_all, Bool.true_and, List.all_eq_true]
          intro x hx
          rw [List.eq_of_mem_replicate hx]
          decide
        have hval : digitsValue (natDigits c ++ List.replicate e '0') 0 = c * 10 ^ e := by
          rw [digitsValue_append, digitsValue_replicate_zero, natDigits_value]
        have hne : natDigits c ++ List.replicate e '0' ≠ [] := by
          rw [hd]
          simp
        rw [ParseInt_digits _ hne hall, hval, if_pos (by omega)]
        exact_mod_cast hlt
    · subst hu
      have hlt := fromRat_lt_floor _ _ ky (pow_pos (by norm_num) (f + 1)) h hrt
      simp only [renderF]
      rw [ParseInt_with_point]
      · norm_num
      · have : c / 10 ^ (f + 1) < 100000000000 :=
          (Nat.div_lt_iff_lt_mul (pow_pos (by norm_num) (f + 1))).2 hlt
        rw [hmax]
        omega
theorem spec_bound_nat (m f : Nat)
    (h : specScaledCsd ((if false = true then -1 else 1) * (m : ℚ) / 10 ^ f) < 100000000000) :
    20000000000 * m < 199999999999 * 10 ^ f := by
  unfold specScaledCsd at h
  rw [round_eq, Int.floor_lt] at h
  simp only [Bool.false_eq_true, if_false, one_mul] at h
  have hP : (0 : ℚ) < 10 ^ f := by positivity
  have h2 : (m : ℚ) * 10 ^ 10 * 2 + 10 ^ f < 2 * 100000000000 * 10 ^ f := by
    have := mul_lt_mul_of_pos_right h (show (0 : ℚ) < 2 * 10 ^ f by positivity)
    have e1 : ((m : ℚ) / 10 ^ f * 10 ^ 10 + 1 / 2) * (2 * 10 ^ f)
        = (m : ℚ) * 10 ^ 10 * 2 + 10 ^ f := by
      have e2 : ((m : ℚ) / 10 ^ f * 10 ^ 10 + 1 / 2) * (2 * 10 ^ f)
          = (m : ℚ) * 10 ^ 10 * 2 * ((10 : ℚ) ^ f * ((10 : ℚ) ^ f)⁻¹) + 10 ^ f := by ring
      rw [e2, mul_inv_cancel₀ (ne_of_gt hP), mul_one]
    rw [e1] at this
    push_cast at this
    linarith
  have h3 : m * 10 ^ 10 * 2 + 10 ^ f < 2 * 100000000000 * 10 ^ f := by exact_mod_cast h2
  omega

theorem scaledAmount_lt_of_spec (env : Env) (a : String) (q : ℚ)
    (hq : decimalValue a = some q) (hlt : specScaledCsd q < 100000000000) :
    scaledAmount env a < 100000000000 := by
  obtain ⟨hrA, hrS, _, hovA, hovS, hAS, _, _⟩ := representable_bounds
  unfold decimalValue at hq
  cases hrd : readDecimal a.data with
  | none =>
    rw [hrd] at hq
    cases hq
  | some p =>
    obtain ⟨neg, m, f⟩ := p
    rw [hrd] at hq
    simp only [Option.map_some', Option.some.injEq] at hq
    have hx : ParseFloat env.parseFloatOther a = roundUnits neg (m * unit) (10 ^ f) := by
      simp only [ParseFloat, hrd, fromRat]
    unfold scaledAmount
    rw [hx]
    cases neg with
    | true =>
      by_contra hcon
      have hpos : 0 < (ParseInt (FormatFloat
          ((roundUnits true (m * unit) (10 ^ f)).mul f1e10))).1 :=
        lt_of_lt_of_le (by decide) (not_lt.1 hcon)
      obtain ⟨k, _, hk⟩ := scaled_pos_finite _ hpos
      rcases roundUnits_cases true (m * unit) (10 ^ f) with e | ⟨k2, e⟩
      · rw [e] at hk
        cases hk
      · rw [e] at hk
        cases hk
    | false =>
      subst hq
      have hN := spec_bound_nat m f hlt
      have hA : m * unit ≤ boundAmount * 10 ^ f := by
        have h35 : unit = 34359738368 * 2 ^ 1039 := by decide
        have hb : boundAmount = 343597383679 * 2 ^ 1039 := rfl
        rw [h35, hb]
        have : m * 34359738368 ≤ 343597383679 * 10 ^ f := by omega
        calc m * (34359738368 * 2 ^ 1039) = (m * 34359738368) * 2 ^ 1039 := by ring
          _ ≤ (343597383679 * 10 ^ f) * 2 ^ 1039 := Nat.mul_le_mul_right _ this
          _ = 343597383679 * 2 ^ 1039 * 10 ^ f := by ring
      obtain ⟨k, hk, hkle⟩ :=
        roundUnits_le false (m * unit) (10 ^ f) boundAmount (pow_pos (by norm_num) f) hrA hovA hA
      rw [hk]
      have hm : (F64.fin false k).mul f1e10 = roundUnits false (k * (10000000000 * unit)) unit :=
        rfl
      rw [hm]
      have hS : k * (10000000000 * unit) ≤ boundScaled * unit := by
        calc k * (10000000000 * unit) = (k * 10000000000) * unit := by ring
          _ ≤ (boundAmount * 10000000000) * unit :=
            Nat.mul_le_mul_right _ (Nat.mul_le_mul_right _ hkle)
          _ ≤ boundScaled * unit := Nat.mul_le_mul_right _ hAS
      obtain ⟨ky, hky, hkyle⟩ :=
        roundUnits_le false (k * (10000000000 * unit)) unit boundScaled (by decide) hrS hovS hS
      rw [hky]
      exact scaled_of_small ky hkyle

theorem roundUnits_exact (neg : Bool) (k d : Nat) (hd : 0 < d) (hr : Representable k)
    (hov : k < overflowUnits) : roundUnits neg (k * d) d = F64.fin neg k := by
  obtain ⟨k1, h1, hle⟩ := roundUnits_le neg (k * d) d k hd hr hov (le_refl _)
  rcases Nat.eq_zero_or_pos k with h0 | hpos
  · have : k1 = 0 := by omega
    rw [h1, this, h0]
  · rcases roundUnits_ge neg (k * d) d k hd hr hpos (le_refl _) with e | ⟨k2, e, hge⟩
    · rw [e] at h1
      cases h1
    · have heq : F64.fin neg k2 = F64.fin neg k1 := e.symm.trans h1
      have h21 : k2 = k1 := by
        injection heq
      have h1k : k1 = k := by omega
      rw [h1, h1k]

theorem representable_int (N : Nat) (h53 : N < 2 ^ 53) : Representable (N * unit) := by
  unfold Representable
  rcases Nat.eq_zero_or_pos N with h0 | hpos
  · rw [h0, Nat.zero_mul]
    exact dvd_zero _
  · have hu : 0 < unit := by decide
    have hn : 0 < N * unit := Nat.mul_pos hpos hu
    have hlt : N * unit < 2 ^ 1127 := by
      have : (2 : Nat) ^ 1127 = 2 ^ 53 * unit := by
        unfold unit
        rw [← pow_add]
      rw [this]
      exact Nat.mul_lt_mul_of_pos_right h53 hu
    have h1 := (ilog2_spec (N * unit) hn).1
    have h2 : 2 ^ ilog2 (N * unit) < 2 ^ 1127 := lt_of_le_of_lt h1 hlt
    have h3 := (Nat.pow_lt_pow_iff_right (by norm_num : 1 < 2)).1 h2
    have h4 : ilog2 (N * unit) - 52 ≤ 1074 := by omega
    have h5 : 2 ^ (ilog2 (N * unit) - 52) ∣ unit := by
      unfold unit
      exact pow_dvd_pow 2 h4
    exact Dvd.dvd.mul_left h5 N

theorem branch_cases_full {α : Type} (okLo okHi : Bool) (p : Prop) [Decidable p] (x y r z : α)
    (h : (if (okLo && okHi) = true then (if p then x else y)
          else if okLo = true then x else if okHi = true then y else r) = z) :
    (okLo = true ∧ z = x) ∨ (okHi = true ∧ z = y)
    ∨ (okLo = false ∧ okHi = false ∧ z = r) := by
  cases okLo <;> cases okHi <;> simp at h
  · exact Or.inr (Or.inr ⟨rfl, rfl, h.symm⟩)
  · exact Or.inr (Or.inl ⟨rfl, h.symm⟩)
  · exact Or.inl ⟨rfl, h.symm⟩
  · by_cases hp : p
    · rw [if_pos hp] at h
      exact Or.inl ⟨rfl, h.symm⟩
    · rw [if_neg hp] at h
      exact Or.inr (Or.inl ⟨rfl, h.symm⟩)

theorem shortest_step_integral (k i c : Nat) (hi : i ≤ 309)
    (h : (if i ≤ 309 then fromRat false (c * 10 ^ (309 - i)) 1 else fromRat false c (10 ^ (i - 309)))
      = F64.fin false k) :
    ∃ e : Nat, (309 - (i : Int)) = (e : Int) ∧ fromRat false (c * 10 ^ e) 1 = F64.fin false k := by
  rw [if_pos hi] at h
  refine ⟨309 - i, ?_, h⟩
  omega

theorem shortestAux_integral (k fuel i c : Nat) (u : Int) (hi : i ≤ 309) (hf : 309 - i < fuel)
    (hk0 : k / unit ≠ 0) (hk : fromRat false (k / unit) 1 = F64.fin false k)
    (h : shortestAux k fuel i = (c, u)) :
    ∃ e : Nat, u = (e : Int) ∧ fromRat false (c * 10 ^ e) 1 = F64.fin false k := by
  induction fuel generalizing i with
  | zero => exact absurd hf (Nat.not_lt_zero _)
  | succ fuel ih =>
    unfold shortestAux at h
    dsimp only at h
    rcases branch_cases_full _ _ _ _ _ _ _ h with ⟨hok, heq⟩ | ⟨hok, heq⟩ | ⟨hlo, _, heq⟩
    · simp only [Prod.mk.injEq] at heq
      obtain ⟨rfl, rfl⟩ := heq
      simp only [Bool.and_eq_true, decide_eq_true_eq] at hok
      exact shortest_step_integral k i _ hi hok.2
    · simp only [Prod.mk.injEq] at heq
      obtain ⟨rfl, rfl⟩ := heq
      simp only [Bool.and_eq_true, decide_eq_true_eq] at hok
      exact shortest_step_integral k i _ hi hok.2
    · rcases Nat.lt_or_ge i 309 with hlt | hge
      · exact ih (i + 1) (by omega) (by omega) heq.symm
      · exfalso
        have h309 : i = 309 := le_antisymm hi hge
        subst h309
        simp only [le_refl, if_true, Nat.sub_self, pow_zero, Nat.mul_one, Bool.and_eq_false_imp,
          decide_eq_true_eq, decide_eq_false_iff_not] at hlo
        exact hlo hk0 hk
theorem fromRat_int_exact (N : Nat) (h53 : N < 2 ^ 53) :
    fromRat false N 1 = F64.fin false (N * unit) := by
  have hov : N * unit < overflowUnits := by
    have hu : 0 < unit := by decide
    have h1 : N * unit < 2 ^ 53 * unit := Nat.mul_lt_mul_of_pos_right h53 hu
    have h2 : 2 ^ 53 * unit ≤ overflowUnits := by decide
    omega
  have := roundUnits_exact false (N * unit) 1 Nat.one_pos (representable_int N h53) hov
  rw [Nat.mul_one] at this
  exact this

theorem fromRat_int_inj (M N : Nat) (h53 : N < 2 ^ 53)
    (h : fromRat false M 1 = F64.fin false (N * unit)) : M = N := by
  have hu : 0 < unit := by decide
  rcases Nat.lt_or_ge M (2 ^ 53) with hlt | hge
  · rw [fromRat_int_exact M hlt] at h
    injection h with _ hk
    exact Nat.eq_of_mul_eq_mul_right hu hk
  · exfalso
    have hr : Representable (2 ^ 53 * unit) := by
      unfold Representable
      decide
    have hpos : 0 < 2 ^ 53 * unit := by decide
    have hle : 2 ^ 53 * unit * 1 ≤ M * unit := by
      rw [Nat.mul_one]
      exact Nat.mul_le_mul_right _ hge
    unfold fromRat at h
    rcases roundUnits_ge false (M * unit) 1 (2 ^ 53 * unit) Nat.one_pos hr hpos hle with
      e | ⟨k, e, hk⟩
    · rw [e] at h
      cases h
    · rw [e] at h
      injection h with _ hkk
      have : N * unit < 2 ^ 53 * unit := Nat.mul_lt_mul_of_pos_right h53 hu
      omega

theorem scaled_of_integer (N : Nat) (hpos : 0 < N) (h53 : N < 2 ^ 53) :
    (ParseInt (FormatFloat (F64.fin false (N * unit)))).1 = (N : Int) := by
  have hu : 0 < unit := by decide
  have hk0 : N * unit ≠ 0 := Nat.pos_iff_ne_zero.1 (Nat.mul_pos hpos hu)
  have hdiv : N * unit / unit = N := Nat.mul_div_cancel _ hu
  simp only [FormatFloat, Bool.false_eq_true, if_false, if_neg hk0]
  rcases hs : shortest (N * unit) with ⟨c, u⟩
  simp only
  obtain ⟨e, hu', hrt⟩ := shortestAux_integral (N * unit) 1384 0 c u (by norm_num) (by norm_num)
    (by rw [hdiv]; exact Nat.pos_iff_ne_zero.1 hpos)
    (by rw [hdiv]; exact fromRat_int_exact N h53) hs
  subst hu'
  have hM := fromRat_int_inj _ N h53 hrt
  show (ParseInt (renderF c (Int.ofNat e))).1 = (N : Int)
  simp only [renderF]
  have hc0 : c ≠ 0 := by
    rintro rfl
    rw [Nat.zero_mul] at hM
    omega
  rw [if_neg hc0]
  obtain ⟨d, ds, hd, hdig⟩ := natDigits_cons c
  have hall : (natDigits c ++ List.replicate e '0').all isDigit = true := by
    rw [List.all_append, natDigits_all, Bool.true_and, List.all_eq_true]
    intro x hx
    rw [List.eq_of_mem_replicate hx]
    decide
  have hval : digitsValue (natDigits c ++ List.replicate e '0') 0 = c * 10 ^ e := by
    rw [digitsValue_append, digitsValue_replicate_zero, natDigits_value]
  have hne : natDigits c ++ List.replicate e '0' ≠ [] := by
    rw [hd]
    simp
  have h63 : c * 10 ^ e < 2 ^ 63 := by
    rw [hM]
    exact lt_trans h53 (by norm_num)
  rw [ParseInt_digits _ hne hall, hval, if_pos h63, hM]

theorem scaledAmount_exact (env : Env) (a : String) (m f kx N : Nat)
    (hrd : readDecimal a.data = some (false, m, f)) (hx : m * unit = kx * 10 ^ f)
    (hrep : Representable kx) (hN : kx * 10000000000 = N * unit)
    (hpos : 0 < N) (h53 : N < 2 ^ 53) : scaledAmount env a = (N : Int) := by
  have hu : 0 < unit := by decide
  have hNu : N * unit < overflowUnits := by
    have h1 : N * unit < 2 ^ 53 * unit := Nat.mul_lt_mul_of_pos_right h53 hu
    have h2 : 2 ^ 53 * unit ≤ overflowUnits := by decide
    omega
  have hkx : kx < overflowUnits := by
    have : kx ≤ kx * 10000000000 := Nat.le_mul_of_pos_right _ (by norm_num)
    omega
  have hxf : ParseFloat env.parseFloatOther a = F64.fin false kx := by
    simp only [ParseFloat, hrd, fromRat]
    rw [hx]
    exact roundUnits_exact false kx (10 ^ f) (pow_pos (by norm_num) f) hrep hkx
  have hy : (F64.fin false kx).mul f1e10 = F64.fin false (N * unit) := by
    have hm : (F64.fin false kx).mul f1e10
        = roundUnits false (kx * (10000000000 * unit)) unit := rfl
    have he : kx * (10000000000 * unit) = N * unit * unit := by
      rw [← Nat.mul_assoc, hN]
    rw [hm, he]
    exact roundUnits_exact false (N * unit) unit hu (representable_int N h53) hNu
  unfold scaledAmount
  rw [hxf, hy]
  exact scaled_of_integer N hpos h53
theorem specScaledCsd_eq (q : ℚ) (z : ℤ) (h1 : (z : ℚ) ≤ q * 10 ^ 10 + 1 / 2)
    (h2 : q * 10 ^ 10 + 1 / 2 < (z : ℚ) + 1) : specScaledCsd q = z := by
  unfold specScaledCsd
  rw [round_eq, Int.floor_eq_iff]
  exact ⟨h1, h2⟩

theorem decimalValue_of_read (a : String) (m f : Nat)
    (h : readDecimal a.data = some (false, m, f)) :
    decimalValue a = some ((m : ℚ) / 10 ^ f) := by
  simp only [decimalValue, h, Option.map_some', Bool.false_eq_true, if_false, one_mul]

/-! ## Claims -/

/-- C10: on a decoded list of entries `requestHbsResult` returns, with a nil
error and one feed request, the `Usd` of the last entry whose `CoinId` is
exactly `"HBS(BEP20)"`, and the zero price when there is none; the entries
with another `CoinId` are filtered away before the price is read, so they
have no influence. -/
theorem requestHbsResult_lookup (env : Env) (data : List eth) :
    requestHbsResult { env with feed := FeedResponse.decoded (data.map some) }
      = (Fetch.ok (lastHbsPrice data), [Event.feedGet])
    ∧ (∀ data2 : List eth,
        data2.filter (fun v => decide (v.CoinId = "HBS(BEP20)"))
          = data.filter (fun v => decide (v.CoinId = "HBS(BEP20)")) →
        lastHbsPrice data2 = lastHbsPrice data)
    ∧ ((∀ v ∈ data, v.CoinId ≠ "HBS(BEP20)") → lastHbsPrice data = F64.fin false 0) := by
  refine ⟨?_, ?_, ?_⟩
  · simp only [requestHbsResult, hbsLoop_map_some, lastHbsPrice]
    cases (List.filter (fun v => decide (v.CoinId = "HBS(BEP20)")) data).getLast? <;> rfl
  · intro data2 h
    simp only [lastHbsPrice, h]
  · intro h
    have : List.filter (fun v => decide (v.CoinId = "HBS(BEP20)")) data = [] := by
      rw [List.filter_eq_nil_iff]
      intro v hv
      simpa using h v hv
    simp [lastHbsPrice, this]

/-- C2, as stated, fails: with no claims in the request context `Trade` does
not answer Unauthorized; it prices the request and reaches the ledger as
user `0`. -/
theorem Trade_absent_claims_reaches_ledger :
    (Trade envScenario none { Amount := "10" }).1
        ≠ Result.ret none (some (errToken "无效TOKEN"))
    ∧ Event.ledgerTrade 0 { Amount := "10" } 10000000000 500000000000
        ∈ (Trade envScenario none { Amount := "10" }).2 := by
  decide

/-- C2, amended: when the claims object is present and lacks `UserId`,
`Trade` fails with Unauthorized and has made no call at all, whatever the
amount and the remote responses; when the context carries no claims, `Trade`
behaves exactly as for a user whose `UserId` is `0`. -/
theorem Trade_unauthorized (env : Env) (req : WithdrawRequest) :
    Trade env (some (Claims.mapClaims none)) req
        = (Result.ret none (some (errToken "无效TOKEN")), [])
    ∧ Trade env none req
        = Trade env (some (Claims.mapClaims (some (ClaimValue.number (F64.fin false 0))))) req := by
  constructor
  · rfl
  · have h0 : (F64.fin false 0).toInt64 env.int64Invalid = 0 := by
      have hz : ((0 / unit : Nat) : Int) = 0 := by decide
      have hr : minInt64 ≤ (0 : Int) ∧ (0 : Int) ≤ maxInt64 := by decide
      simp only [F64.toInt64, Bool.false_eq_true, if_false, hz, hr, and_self, if_true]
    have h : identity env (some (Claims.mapClaims (some (ClaimValue.number (F64.fin false 0)))))
        = identity env none := by
      simp only [identity, h0]
    simp only [Trade, h]

/-- C6, as stated, fails: in the end-to-end scenario the preview does not
return `AmountCsd = "10.0000"`. -/
theorem GetTrade_scenario_not_ten :
    (GetTrade envScenario { Amount := "10" }).1
      ≠ Result.ret (some { AmountCsd := "10.0000", AmountHbs := "50.0000" }) none := by
  decide

/-- C6, amended: in the end-to-end scenario (amount `"10"`, router output
`"1000000000000000000"`, feed price `2.0`) the router output truncates to
`tmpValue = 10000000000`, `amountB` is `500000000000`, and `GetTrade` succeeds
with `AmountCsd = "1.0000"` and `AmountHbs = "50.0000"`, after one router
query and one feed request. -/
theorem GetTrade_scenario :
    GetTrade envScenario { Amount := "10" }
        = (Result.ret (some { AmountCsd := "1.0000", AmountHbs := "50.0000" }) none,
            [Event.dial, Event.routerCall 10000000000000000000, Event.feedGet])
    ∧ (ParseInt ((bigString 1000000000000000000).take
          ((bigString 1000000000000000000).length - 8))).1 = 10000000000
    ∧ ((((ParseFloat envScenario.parseFloatOther "10").mul f10).div
          (F64.fin false (2 * unit))).mul f1e10).toInt64 envScenario.int64Invalid = 500000000000
    ∧ Sprintf4 ((F64.ofInt 10000000000).div (F64.ofInt 10000000000)) = "1.0000"
    ∧ Sprintf4 ((F64.ofInt 500000000000).div (F64.ofInt 10000000000)) = "50.0000" := by
  decide

/-- C7, the code at the failing input: the amount `"10.5"` passes the
validator (its scaled value is `105000000000`, at least `10^11` and a
multiple of 10), yet `"10.5" + "000000000000000000"` is not a base-10
integer, let alone `10.5 * 10^18`: `SetString` fails, its failure is
dropped, and both handlers panic on the nil amount once the router is
dialled, before any router or feed request. -/
theorem chain_amount_with_point_unparsable :
    (ParseInt (FormatFloat ((ParseFloat envScenario.parseFloatOther "10.5").mul f1e10))).1
        = 105000000000
    ∧ Validated envScenario "10.5"
    ∧ SetString ("10.5" ++ zeros18).data = none
    ∧ GetTrade envScenario { Amount := "10.5" } = (Result.panic, [Event.dial])
    ∧ Trade envScenario none { Amount := "10.5" } = (Result.panic, [Event.dial]) := by
  decide

/-- Where the concatenation does work: for every amount string made of
decimal digits only (at least one), the validator reads the amount as the
integer the digits denote, the query string
`amount + "000000000000000000"` parses as the base-10 big integer
`amount * 10^18`, and that integer is what `GetAmountOut` sends to the
router. -/
theorem chain_amount_of_digits (env : Env) (amount : String)
    (hne : amount.data ≠ []) (hd : amount.data.all isDigit = true) :
    readDecimal amount.data = some (false, digitsValue amount.data 0, 0)
    ∧ SetString (amount ++ zeros18).data = some ((digitsValue amount.data 0 * 10 ^ 18 : Nat) : Int)
    ∧ (env.connect = true →
        (GetAmountOut env (amount ++ zeros18)).2
          = [Event.dial,
             Event.routerCall ((digitsValue amount.data 0 * 10 ^ 18 : Nat) : Int)]) := by
  have hz : zeros18.data = List.replicate 18 '0' := by decide
  have hall : (amount.data ++ List.replicate 18 '0').all isDigit = true := by
    rw [List.all_append, hd]
    decide
  have hset : SetString (amount ++ zeros18).data
      = some ((digitsValue amount.data 0 * 10 ^ 18 : Nat) : Int) := by
    rw [String.data_append, hz, SetString_digits _ (by simp [hne]) hall, digitsValue_append,
      digitsValue_replicate_zero]
  refine ⟨readDecimal_digits _ hne hd, hset, ?_⟩
  intro hc
  simp only [GetAmountOut, hc, hset]
  rw [if_neg (by decide)]
  split
  · rfl
  · split <;> rfl

/-- The digit-only amount `"10"` gives the chain amount `10 * 10^18`. -/
theorem chain_amount_of_digits_witness :
    SetString ("10" ++ zeros18).data = some ((digitsValue "10".data 0 * 10 ^ 18 : Nat) : Int) :=
  (chain_amount_of_digits envScenario "10" (by decide) (by decide)).2.1

/-- C9: under claims whose `UserId` is a number `f`, and for every amount and
every remote response, `Trade` calls the ledger if and only if `GetTrade`
succeeds on the same request.  When it does, the router answered some `csd`
and the feed some `hbs`, `GetTrade` shows the `%.4f` renderings of the pair
`(ParseInt(csd[0:len-8]), int64(amountFloat*10/hbs*10000000000))`, and
`Trade` makes the calls of `GetTrade` followed by exactly one ledger call,
with `int64(f)`, the request and that very pair, and returns what the
ledger returned.  An error of `GetTrade` other than the minimum-amount one
is the error of `Trade`, after the same calls; on the minimum-amount error
`Trade` returns the reply with status `"fail"`. -/
theorem Trade_reprices_like_GetTrade (env : Env) (amount : String) (f : F64) :
    ((∃ e ∈ (Trade env (some (Claims.mapClaims (some (ClaimValue.number f))))
          { Amount := amount }).2, e.isLedger = true)
      ↔ ∃ r, (GetTrade env { Amount := amount }).1 = Result.ret (some r) none)
    ∧ (∀ r, (GetTrade env { Amount := amount }).1 = Result.ret (some r) none →
        ∃ csd ev hbs,
          GetAmountOut env (chainAmount amount) = (Fetch.ok csd, ev)
          ∧ requestHbsResult env = (Fetch.ok hbs, [Event.feedGet])
          ∧ r = { AmountCsd := display (tmpValueOf csd),
                  AmountHbs := display (amountBOf env amount hbs) }
          ∧ (GetTrade env { Amount := amount }).2 = ev ++ [Event.feedGet]
          ∧ (Trade env (some (Claims.mapClaims (some (ClaimValue.number f))))
              { Amount := amount }).1
            = env.ledger (f.toInt64 env.int64Invalid) { Amount := amount } (tmpValueOf csd)
                (amountBOf env amount hbs)
          ∧ (Trade env (some (Claims.mapClaims (some (ClaimValue.number f))))
              { Amount := amount }).2
            = (GetTrade env { Amount := amount }).2
              ++ [Event.ledgerTrade (f.toInt64 env.int64Invalid) { Amount := amount }
                    (tmpValueOf csd) (amountBOf env amount hbs)]
          ∧ (Trade env (some (Claims.mapClaims (some (ClaimValue.number f))))
              { Amount := amount }).2.filter Event.isLedger
            = [Event.ledgerTrade (f.toInt64 env.int64Invalid) { Amount := amount }
                (tmpValueOf csd) (amountBOf env amount hbs)])
    ∧ (∀ e, (GetTrade env { Amount := amount }).1 = Result.ret none (some e) →
        e ≠ errToken "输入错误" →
        Trade env (some (Claims.mapClaims (some (ClaimValue.number f)))) { Amount := amount }
          = (Result.ret none (some e), (GetTrade env { Amount := amount }).2))
    ∧ ((GetTrade env { Amount := amount }).1 = Result.ret none (some (errToken "输入错误")) →
        Trade env (some (Claims.mapClaims (some (ClaimValue.number f)))) { Amount := amount }
          = (Result.ret (some { Status := "fail" }) none, [])) := by
  have hnl : ∀ ev : List Event, (∀ e ∈ ev, e.isLedger = false) →
      ev.filter Event.isLedger = [] := by
    intro ev h
    rw [List.filter_eq_nil_iff]
    intro e he
    rw [h e he]
    exact Bool.false_ne_true
  have hno : ∀ ev : List Event, (∀ e ∈ ev, e.isLedger = false) →
      ¬ ∃ e ∈ ev, e.isLedger = true := by
    rintro ev h ⟨e, he, ht⟩
    rw [h e he] at ht
    exact Bool.false_ne_true ht
  have hB : ∀ r, (GetTrade env { Amount := amount }).1 = Result.ret (some r) none →
      ∃ csd ev hbs,
        GetAmountOut env (chainAmount amount) = (Fetch.ok csd, ev)
        ∧ requestHbsResult env = (Fetch.ok hbs, [Event.feedGet])
        ∧ r = { AmountCsd := display (tmpValueOf csd),
                AmountHbs := display (amountBOf env amount hbs) }
        ∧ (GetTrade env { Amount := amount }).2 = ev ++ [Event.feedGet]
        ∧ (Trade env (some (Claims.mapClaims (some (ClaimValue.number f))))
            { Amount := amount }).1
          = env.ledger (f.toInt64 env.int64Invalid) { Amount := amount } (tmpValueOf csd)
              (amountBOf env amount hbs)
        ∧ (Trade env (some (Claims.mapClaims (some (ClaimValue.number f))))
            { Amount := amount }).2
          = (GetTrade env { Amount := amount }).2
            ++ [Event.ledgerTrade (f.toInt64 env.int64Invalid) { Amount := amount }
                  (tmpValueOf csd) (amountBOf env amount hbs)]
        ∧ (Trade env (some (Claims.mapClaims (some (ClaimValue.number f))))
            { Amount := amount }).2.filter Event.isLedger
          = [Event.ledgerTrade (f.toInt64 env.int64Invalid) { Amount := amount }
              (tmpValueOf csd) (amountBOf env amount hbs)] := by
    intro r hr
    obtain ⟨csd, ev, hbs, hv, hg, hq, hl, ht, hb, hreq⟩ := GetTrade_success env amount r hr
    obtain ⟨hG, hT⟩ := stage_router env amount
      (some (Claims.mapClaims (some (ClaimValue.number f)))) (f.toInt64 env.int64Invalid) rfl hv
    have hc : ¬ (csd.length < 10 ∨ tmpValueOf csd = 0) := by
      rintro (h | h)
      · omega
      · exact ht h
    have hb' : ¬ amountBOf env amount hbs ≤ 0 := not_le.2 hb
    have hev := GetAmountOut_events env (chainAmount amount)
    rw [hg] at hev
    simp only at hev
    rw [hg] at hG hT
    simp only at hG hT
    rw [if_neg hc, hq] at hG hT
    simp only at hG hT
    rw [if_neg hb'] at hG hT
    refine ⟨csd, ev, hbs, hg, hq, hreq, ?_, ?_, ?_, ?_⟩
    · rw [hG]
    · rw [hT]
    · rw [hT, hG]
    · rw [hT]
      have hev2 : ∀ e ∈ ev ++ [Event.feedGet], e.isLedger = false := by
        intro e he
        rcases List.mem_append.1 he with h | h
        · exact hev e h
        · simp only [List.mem_singleton] at h
          subst h; rfl
      simp only [List.filter_append, hnl _ hev2, List.nil_append]
      rfl
  refine ⟨?_, hB, ?_, ?_⟩
  · rcases Trade_GetTrade_cases env amount f with
      ⟨hg, ht⟩ | ⟨msg, ev, hm, hev, hg, ht⟩ | ⟨ev, hev, hg, ht⟩ | ⟨tv, ab, ev, hev, hg, ht⟩
    · rw [hg, ht]
      constructor
      · rintro ⟨e, he, _⟩
        exact absurd he (List.not_mem_nil e)
      · rintro ⟨r, hr⟩
        cases hr
    · rw [hg, ht]
      constructor
      · intro h
        exact absurd h (hno ev hev)
      · rintro ⟨r, hr⟩
        cases hr
    · rw [hg, ht]
      constructor
      · intro h
        exact absurd h (hno ev hev)
      · rintro ⟨r, hr⟩
        cases hr
    · rw [hg, ht]
      constructor
      · intro _
        exact ⟨_, rfl⟩
      · intro _
        exact ⟨_, List.mem_append_right _ (List.mem_singleton.2 rfl), rfl⟩
  · rcases Trade_GetTrade_cases env amount f with
      ⟨hg, ht⟩ | ⟨msg, ev, hm, hev, hg, ht⟩ | ⟨ev, hev, hg, ht⟩ | ⟨tv, ab, ev, hev, hg, ht⟩
    · rw [hg, ht]
      intro e he hne
      cases he
      exact absurd rfl hne
    · rw [hg, ht]
      intro e he _
      cases he
      rfl
    · rw [hg, ht]
      intro e he
      cases he
    · rw [hg, ht]
      intro e he
      cases he
  · rcases Trade_GetTrade_cases env amount f with
      ⟨hg, ht⟩ | ⟨msg, ev, hm, hev, hg, ht⟩ | ⟨ev, hev, hg, ht⟩ | ⟨tv, ab, ev, hev, hg, ht⟩
    · rw [hg, ht]
      intro _
      rfl
    · rw [hg, ht]
      intro h
      simp only [errToken, Result.ret.injEq, Option.some.injEq, GoError.kratos.injEq, true_and]
        at h
      exact absurd h hm
    · rw [hg, ht]
      intro h
      cases h
    · rw [hg, ht]
      intro h
      cases h

/-- C3, as stated, fails: the router output `"1000000000000000000000000000"`
(28 decimal digits, `n = 10^27`) does not give `floor(n / 10^8) = 10^19`; the
20-digit remainder leaves `int64`, `ParseInt` answers its largest value, and
that is the `tmpValue` sent to the ledger. -/
theorem tmpValue_saturates :
    tmpValueOf "1000000000000000000000000000".data = 9223372036854775807
    ∧ (digitsValue "1000000000000000000000000000".data 0 / 10 ^ 8 : Nat) = 10 ^ 19
    ∧ Event.ledgerTrade 0 { Amount := "10" } 9223372036854775807 500000000000
        ∈ (Trade envLarge none { Amount := "10" }).2 := by
  decide

/-- C3, amended: for every router output `s` of at least 10 decimal digits
denoting `n` with `floor(n / 10^8)` inside `int64`, the value `tmpValue`
is exactly `floor(n / 10^8)`: it is what `GetTrade` displays whenever it
succeeds and what `Trade` hands to the ledger whenever it calls it. -/
theorem tmpValue_truncates (s : List Char) (hd : s.all isDigit = true) (hl : 10 ≤ s.length)
    (hr : digitsValue s 0 / 10 ^ 8 < 2 ^ 63) :
    tmpValueOf s = ((digitsValue s 0 / 10 ^ 8 : Nat) : Int)
    ∧ ∀ (env : Env) (a : String) (ev : List Event),
        GetAmountOut env (chainAmount a) = (Fetch.ok s, ev) →
        (∀ r, (GetTrade env { Amount := a }).1 = Result.ret (some r) none →
          r.AmountCsd = display ((digitsValue s 0 / 10 ^ 8 : Nat) : Int))
        ∧ (∀ claims uid rq tv ab,
            Event.ledgerTrade uid rq tv ab ∈ (Trade env claims { Amount := a }).2 →
            tv = ((digitsValue s 0 / 10 ^ 8 : Nat) : Int)) := by
  have ht : tmpValueOf s = ((digitsValue s 0 / 10 ^ 8 : Nat) : Int) := by
    rw [tmpValueOf_digits s hd hl, if_pos hr]
  refine ⟨ht, ?_⟩
  intro env a ev hg
  constructor
  · intro r hr
    obtain ⟨csd, ev', hbs, _, hg', _, _, _, _, rfl⟩ := GetTrade_success env a r hr
    rw [hg] at hg'
    cases hg'
    rw [ht]
  · intro claims uid rq tv ab he
    obtain ⟨uid', csd, ev', hbs, _, _, hg', _, _, _, _, heq, _⟩ :=
      Trade_ledger_event env a claims _ he rfl
    rw [hg] at hg'
    cases hg'
    cases heq
    exact ht

/-- Witness of C3 (amended): the router output `"123456789012345678"` gives
`tmpValue = 1234567890`. -/
theorem tmpValue_truncates_witness :
    tmpValueOf "123456789012345678".data = 1234567890 :=
  (tmpValue_truncates "123456789012345678".data (by decide) (by decide) (by decide)).1

/-- C5, as stated, fails, in four ways.  The minimum is tested first:
`"0.0009765625"` scales to `9765625`, not a multiple of 10, and gets the
minimum-amount outcome.  The scaled value is not rounded:
`"10.00000000012"` has `round(a * 10^10) = 100000000001` and gets the
minimum-amount error.  An amount that `float64` does not hold exactly can
miss its scaled value: `"10.0000000093"` has `a * 10^10 = 100000000093` and
gets the minimum-amount error.  A scaled value that `float64` does not hold
exactly is rendered with fewer digits: `"10000000.0009765625"` has
`a * 10^10 = 100000000009765625` and passes the validator. -/
theorem granularity_after_minimum :
    (decimalValue "0.0009765625" = some (9765625 / 10 ^ 10)
      ∧ specScaledCsd (9765625 / 10 ^ 10) % 10 ≠ 0
      ∧ (GetTrade envScenario { Amount := "0.0009765625" }).1
          = Result.ret none (some (errToken "输入错误"))
      ∧ (Trade envScenario
            (some (Claims.mapClaims (some (ClaimValue.number (F64.fin false (7 * unit))))))
            { Amount := "0.0009765625" }).1
          = Result.ret (some { Status := "fail" }) none)
    ∧ (decimalValue "10.00000000012" = some (1000000000012 / 10 ^ 11)
      ∧ specScaledCsd (1000000000012 / 10 ^ 11) = 100000000001
      ∧ (GetTrade envScenario { Amount := "10.00000000012" }).1
          = Result.ret none (some (errToken "输入错误")))
    ∧ (decimalValue "10.0000000093" = some (100000000093 / 10 ^ 10)
      ∧ specScaledCsd (100000000093 / 10 ^ 10) = 100000000093
      ∧ (GetTrade envScenario { Amount := "10.0000000093" }).1
          = Result.ret none (some (errToken "输入错误")))
    ∧ (decimalValue "10000000.0009765625" = some (100000000009765625 / 10 ^ 10)
      ∧ specScaledCsd (100000000009765625 / 10 ^ 10) = 100000000009765625
      ∧ Validated envScenario "10000000.0009765625"
      ∧ (GetTrade envScenario { Amount := "10000000.0009765625" }).1
          ≠ Result.ret none (some (errToken "10的整数倍"))) := by
  refine ⟨⟨?_, ?_, by decide, by decide⟩, ⟨?_, ?_, by decide⟩, ⟨?_, ?_, by decide⟩,
    ⟨?_, ?_, by decide, by decide⟩⟩
  · have h := decimalValue_of_read "0.0009765625" 9765625 10 (by decide)
    rw [h]
    norm_num
  · have h : specScaledCsd (9765625 / 10 ^ 10) = 9765625 :=
      specScaledCsd_eq _ _ (by norm_num) (by norm_num)
    rw [h]
    decide
  · have h := decimalValue_of_read "10.00000000012" 1000000000012 11 (by decide)
    rw [h]
    norm_num
  · exact specScaledCsd_eq _ _ (by norm_num) (by norm_num)
  · have h := decimalValue_of_read "10.0000000093" 100000000093 10 (by decide)
    rw [h]
    norm_num
  · exact specScaledCsd_eq _ _ (by norm_num) (by norm_num)
  · have h := decimalValue_of_read "10000000.0009765625" 100000000009765625 10 (by decide)
    rw [h]
    norm_num
  · exact specScaledCsd_eq _ _ (by norm_num) (by norm_num)

/-- C5, amended: for every decimal amount `a` (value `q`) that `float64`
holds exactly (`q` is the representable magnitude `kx`) and whose scaled
value `q * 10^10` is an integer `N` below `2^53`, hence held exactly too:
when `round(q * 10^10)` is at least `10^11` and not a multiple of 10,
`GetTrade` and `Trade` (under claims that pass the identity block) both
return the error (500, "10的整数倍") and make no call. -/
theorem granularity_rejected (env : Env) (a : String) (claims : Option Claims) (uid : Int)
    (q : ℚ) (kx N : Nat)
    (hid : identity env claims = Fetch.ok uid)
    (hq : decimalValue a = some q)
    (hx : q * (unit : ℚ) = (kx : ℚ)) (hrep : Representable kx)
    (hN : q * 10 ^ 10 = (N : ℚ)) (h53 : N < 2 ^ 53)
    (hge : 100000000000 ≤ specScaledCsd q) (hmod : specScaledCsd q % 10 ≠ 0) :
    GetTrade env { Amount := a } = (Result.ret none (some (errToken "10的整数倍")), [])
    ∧ Trade env claims { Amount := a } = (Result.ret none (some (errToken "10的整数倍")), []) := by
  have hu : (0 : ℚ) < (unit : ℚ) := by
    have : 0 < unit := by decide
    exact_mod_cast this
  have hspec : specScaledCsd q = (N : Int) := by
    unfold specScaledCsd
    rw [hN]
    exact round_natCast N
  rw [hspec] at hge hmod
  have hNpos : 0 < N := by omega
  unfold decimalValue at hq
  cases hrd : readDecimal a.data with
  | none =>
    rw [hrd] at hq
    cases hq
  | some p =>
    obtain ⟨neg, m, f⟩ := p
    rw [hrd] at hq
    simp only [Option.map_some', Option.some.injEq] at hq
    have hP : (0 : ℚ) < 10 ^ f := by positivity
    have hqpos : 0 < q := by
      have h1 : (0 : ℚ) < q * 10 ^ 10 := by
        rw [hN]
        exact_mod_cast hNpos
      exact pos_of_mul_pos_left h1 (by positivity)
    cases neg with
    | true =>
      exfalso
      simp only [if_true] at hq
      have : q ≤ 0 := by
        rw [← hq]
        apply div_nonpos_of_nonpos_of_nonneg _ (le_of_lt hP)
        have : (0 : ℚ) ≤ (m : ℚ) := Nat.cast_nonneg m
        linarith
      linarith
    | false =>
      simp only [Bool.false_eq_true, if_false, one_mul] at hq
      have hxn : m * unit = kx * 10 ^ f := by
        have h1 : (m : ℚ) * (unit : ℚ) = (kx : ℚ) * 10 ^ f := by
          rw [← hx, ← hq]
          field_simp
        exact_mod_cast h1
      have hNn : kx * 10000000000 = N * unit := by
        have h1 : (kx : ℚ) * 10000000000 = (N : ℚ) * (unit : ℚ) := by
          rw [← hN, ← hx]
          ring
        exact_mod_cast h1
      have hsc := scaledAmount_exact env a m f kx N hrd hxn hrep hNn hNpos h53
      apply stage_granularity env a claims uid hid
      · rw [hsc]
        exact hge
      · rw [hsc, Int.tmod_eq_emod (Int.ofNat_nonneg N) (by norm_num)]
        exact hmod

/-- Witness of C5 (amended): the amount `"10.0009765625"`, that is
`10241 / 1024`, whose scaled value is `100009765625`. -/
theorem granularity_rejected_witness :
    decimalValue "10.0009765625" = some (100009765625 / 10 ^ 10)
    ∧ specScaledCsd (100009765625 / 10 ^ 10) = 100009765625
    ∧ GetTrade envScenario { Amount := "10.0009765625" }
        = (Result.ret none (some (errToken "10的整数倍")), []) := by
  have h1 : decimalValue "10.0009765625" = some (100009765625 / 10 ^ 10) := by
    have h := decimalValue_of_read "10.0009765625" 100009765625 10 (by decide)
    rw [h]
    norm_num
  have h2 : specScaledCsd (100009765625 / 10 ^ 10) = 100009765625 :=
    specScaledCsd_eq _ _ (by norm_num) (by norm_num)
  have hx : (100009765625 / 10 ^ 10 : ℚ) * (unit : ℚ) = ((10241 * 2 ^ 1064 : Nat) : ℚ) := by
    unfold unit
    norm_num
  have hrep : Representable (10241 * 2 ^ 1064) := by
    unfold Representable
    decide
  have hN : (100009765625 / 10 ^ 10 : ℚ) * 10 ^ 10 = ((100009765625 : Nat) : ℚ) := by
    norm_num
  exact ⟨h1, h2,
    (granularity_rejected envScenario "10.0009765625"
      (some (Claims.mapClaims (some (ClaimValue.number (F64.fin false (7 * unit)))))) 7
      (100009765625 / 10 ^ 10) (10241 * 2 ^ 1064) 100009765625
      (by decide) h1 hx hrep hN (by norm_num) (by rw [h2]; norm_num)
      (by rw [h2]; decide)).1⟩

/-- C8: for a validated amount and a router output that is the canonical
decimal string of a natural number `n`, `GetTrade` answers (500, "币价过低")
if and only if the string has fewer than 10 digits, and so does `Trade`
before any feed or ledger call; with 10 digits or more the slice
`s[0:len(s)-8]` is in range and `tmpValue` is at least 10, so the rejection
of a zero `tmpValue` is never taken. -/
theorem priceTooLow_iff_short (env : Env) (a : String) (claims : Option Claims) (uid : Int)
    (n : Nat) (ev : List Event)
    (hid : identity env claims = Fetch.ok uid) (hv : Validated env a)
    (hg : GetAmountOut env (chainAmount a) = (Fetch.ok (natDigits n), ev)) :
    ((GetTrade env { Amount := a }).1 = Result.ret none (some (errToken "币价过低"))
      ↔ (natDigits n).length < 10)
    ∧ (Trade env claims { Amount := a } = (Result.ret none (some (errToken "币价过低")), ev)
      ↔ (natDigits n).length < 10)
    ∧ (10 ≤ (natDigits n).length →
        8 ≤ (natDigits n).length ∧ 10 ≤ tmpValueOf (natDigits n)) := by
  obtain ⟨hG, hT⟩ := stage_router env a claims uid hid hv
  rw [hG, hT, hg]
  simp only
  have hF := requestHbsResult_events env
  by_cases hl : (natDigits n).length < 10
  · rw [if_pos (Or.inl hl), if_pos (Or.inl hl)]
    exact ⟨⟨fun _ => hl, fun _ => rfl⟩, ⟨fun _ => hl, fun _ => rfl⟩, fun h => by omega⟩
  · have h10 := tmpValueOf_natDigits_ge n (not_lt.1 hl)
    have hc : ¬ ((natDigits n).length < 10 ∨ tmpValueOf (natDigits n) = 0) := by
      rintro (h | h)
      · exact hl h
      · omega
    rw [if_neg hc, if_neg hc]
    refine ⟨⟨?_, fun h => absurd h hl⟩, ⟨?_, fun h => absurd h hl⟩, fun _ => ⟨by omega, h10⟩⟩
    · intro h
      exfalso
      rcases hq : requestHbsResult env with ⟨p, ev2⟩
      rw [hq] at h
      cases p with
      | panic => cases h
      | err => simp [errToken] at h
      | ok hbs =>
        simp only at h
        split at h
        · simp [errToken] at h
        · cases h
    · intro h
      exfalso
      rcases hq : requestHbsResult env with ⟨p, ev2⟩
      rw [hq] at h hF
      simp only at hF
      subst hF
      have hlen := congrArg (fun x => x.2.length) h
      cases p with
      | panic => simp at hlen
      | err => simp at hlen
      | ok hbs =>
        simp only at hlen
        split at hlen <;> simp at hlen

/-- Witness of C8: amount `"10"` against the router outputs of the scenario
(19 digits). -/
theorem priceTooLow_iff_short_witness :
    ((GetTrade envScenario { Amount := "10" }).1 = Result.ret none (some (errToken "币价过低"))
      ↔ (natDigits 1000000000000000000).length < 10) :=
  (priceTooLow_iff_short envScenario "10" none 0 1000000000000000000
    [Event.dial, Event.routerCall 10000000000000000000]
    (by decide) (by decide) (by decide)).1

/-- Where the conversion of invalid values is never positive (as on amd64):
for a validated amount, a router output that passes the two truncation
checks and a feed price `hbs <= 0` (zero of either sign, a negative number
or minus infinity), `GetTrade` and `Trade` both return the error
(500, "币价错误") after the router and feed queries and nothing else. -/
theorem nonpositive_price_rejected (env : Env) (a : String) (claims : Option Claims)
    (uid : Int) (csd : List Char) (ev : List Event) (hbs : F64)
    (hinv : ∀ v, env.int64Invalid v ≤ 0)
    (hid : identity env claims = Fetch.ok uid) (hv : Validated env a)
    (hg : GetAmountOut env (chainAmount a) = (Fetch.ok csd, ev))
    (hl : 10 ≤ csd.length) (ht : tmpValueOf csd ≠ 0)
    (hq : requestHbsResult env = (Fetch.ok hbs, [Event.feedGet]))
    (hle : hbs.leZero = true) :
    GetTrade env { Amount := a }
        = (Result.ret none (some (errToken "币价错误")), ev ++ [Event.feedGet])
    ∧ Trade env claims { Amount := a }
        = (Result.ret none (some (errToken "币价错误")), ev ++ [Event.feedGet])
    ∧ amountBOf env a hbs ≤ 0 := by
  obtain ⟨hG, hT⟩ := stage_router env a claims uid hid hv
  have hb := amountBOf_nonpos env a hbs hv hinv hle
  have hc : ¬ (csd.length < 10 ∨ tmpValueOf csd = 0) := by
    rintro (h | h)
    · omega
    · exact ht h
  rw [hG, hT, hg]
  simp only
  rw [if_neg hc, if_neg hc, hq]
  simp only
  rw [if_pos hb, if_pos hb]
  exact ⟨rfl, rfl, hb⟩

/-- C4, the code at the failing input: the feed lists no `HBS(BEP20)`
entry, so the lookup gives the price `+0`; for the amount `"10"` the quotient
`100 / 0` is `+Inf`, no fault, and `amountB = int64(+Inf)`.  Where that
conversion saturates, `amountB` is `2^63 - 1`, the test `0 >= amountB` does
not fire, the preview shows a quote and the settlement reaches the ledger;
under the conversion of amd64 the same request is answered (500, "币价错误"). -/
theorem zero_price_passes_when_saturating :
    requestHbsResult envSaturating = (Fetch.ok (F64.fin false 0), [Event.feedGet])
    ∧ (F64.fin false 0).leZero = true
    ∧ (((ParseFloat envSaturating.parseFloatOther "10").mul f10).div (F64.fin false 0)).mul f1e10
        = F64.inf false
    ∧ amountBOf envSaturating "10" (F64.fin false 0) = 9223372036854775807
    ∧ GetTrade envSaturating { Amount := "10" }
        = (Result.ret (some { AmountCsd := "1.0000", AmountHbs := "922337203.6855" }) none,
            [Event.dial, Event.routerCall 10000000000000000000, Event.feedGet])
    ∧ Trade envSaturating none { Amount := "10" }
        = (Result.ret (some { Status := "ok" }) none,
            [Event.dial, Event.routerCall 10000000000000000000, Event.feedGet,
              Event.ledgerTrade 0 { Amount := "10" } 10000000000 9223372036854775807])
    ∧ GetTrade envNoPrice { Amount := "10" }
        = (Result.ret none (some (errToken "币价错误")),
            [Event.dial, Event.routerCall 10000000000000000000, Event.feedGet]) := by
  decide

/-- C1: for every decimal amount string `a` (value `q`) with
`round(q * 10^10) < 10^11`, and whatever the router, the feed and the ledger
would answer, `GetTrade` returns the error (500, "输入错误") with no reply, and
`Trade`, under claims that carry a numeric `UserId`, returns the reply with
`Status = "fail"` and a nil error; neither makes any call, so no remote query
is issued and the ledger is not invoked. -/
theorem minimum_amount_floor (env : Env) (a : String) (q : ℚ) (f : F64)
    (hq : decimalValue a = some q) (hlt : specScaledCsd q < 100000000000) :
    GetTrade env { Amount := a } = (Result.ret none (some (errToken "输入错误")), [])
    ∧ Trade env (some (Claims.mapClaims (some (ClaimValue.number f)))) { Amount := a }
        = (Result.ret (some { Status := "fail" }) none, []) :=
  stage_minimum env a _ (f.toInt64 env.int64Invalid) rfl (scaledAmount_lt_of_spec env a q hq hlt)

/-- Witness of C1: the amount `"9.9999"`, whose scaled value is
`99999000000`. -/
theorem minimum_amount_floor_witness :
    decimalValue "9.9999" = some (99999 / 10 ^ 4)
    ∧ specScaledCsd (99999 / 10 ^ 4) < 100000000000
    ∧ GetTrade envScenario { Amount := "9.9999" }
        = (Result.ret none (some (errToken "输入错误")), []) := by
  have h1 : decimalValue "9.9999" = some (99999 / 10 ^ 4) := by
    have h : readDecimal "9.9999".data = some (false, 99999, 4) := by decide
    simp only [decimalValue, h, Option.map_some']
    norm_num
  have h2 : specScaledCsd (99999 / 10 ^ 4) < 100000000000 := by
    have h : specScaledCsd (99999 / 10 ^ 4) = 99999000000 := by
      unfold specScaledCsd
      have : ((99999 : ℚ) / 10 ^ 4 * 10 ^ 10) = ((99999000000 : ℤ) : ℚ) := by norm_num
      rw [this, round_intCast]
    rw [h]
    decide
  exact ⟨h1, h2,
    (minimum_amount_floor envScenario "9.9999" (99999 / 10 ^ 4) (F64.fin false 0) h1 h2).1⟩

end New6App
